import Mathlib

/-!
Verification development for the fileglancer ZIP/OZX archive reader
(src/fileglancer/zipread.py and src/fileglancer/ozxzip.py).

The Python modules are shallowly embedded:
* a file is a `List Nat` of byte values; the OS-level `read`/`seek` calls are
  modelled by `readAt` with explicit absolute offsets (every public operation
  in the source seeks before reading, so the handle position carries no
  observable state and is not tracked);
* the mutable reader object is a `ReaderState` record threaded explicitly;
* Python exceptions are an explicit `ZipErr` value (`Except`); exception
  messages are elided;
* generators are modelled by the finite list of chunks they yield;
* the two external C libraries used by the source are modelled as parameters:
  `zlib.decompressobj(-MAX_WBITS)` as a `DeflateModel` (a deterministic stream
  function), and `json.loads` as a `String → Option JVal` function;
* Python `while` loops whose iteration count is bounded by a state variable
  are written with an explicit fuel argument, initialised at the call site to
  that bound (each loop iteration consumes at least one unit of the bound, so
  the fuel never runs out; the lemmas below carry this invariant).
-/

/-- Little-endian byte helpers: byte `i` of a byte list (0 when out of range,
which never happens under the length guards the source performs first). -/
def byteAt (l : List Nat) (i : Nat) : Nat := l.getD i 0

/-- `struct.unpack '<H'` at an offset. -/
def le16At (l : List Nat) (off : Nat) : Nat :=
  byteAt l off + 256 * byteAt l (off + 1)

/-- `struct.unpack '<L'` at an offset. -/
def le32At (l : List Nat) (off : Nat) : Nat :=
  byteAt l off + 256 * byteAt l (off + 1) + 65536 * byteAt l (off + 2) +
    16777216 * byteAt l (off + 3)

/-- `struct.unpack '<Q'` at an offset. -/
def le64At (l : List Nat) (off : Nat) : Nat :=
  le32At l off + 4294967296 * le32At l (off + 4)

/-- `fh.seek(pos); fh.read(n)` — returns up to `n` bytes, fewer at EOF. -/
def readAt (file : List Nat) (pos n : Nat) : List Nat :=
  (file.drop pos).take n

/-- Encode a 16-bit value as two little-endian bytes (test-archive builder). -/
def le16B (n : Nat) : List Nat := [n % 256, n / 256 % 256]

/-- Encode a 32-bit value as four little-endian bytes. -/
def le32B (n : Nat) : List Nat :=
  [n % 256, n / 256 % 256, n / 65536 % 256, n / 16777216 % 256]

/-- Encode a 64-bit value as eight little-endian bytes. -/
def le64B (n : Nat) : List Nat := le32B (n % 4294967296) ++ le32B (n / 4294967296)

/-- UTF-8 decoding with `errors='replace'`: the replacement character. -/
def replChar : Char := Char.ofNat 0xFFFD

/-- Is a byte a UTF-8 continuation byte (0x80–0xBF)? -/
def isCont (b : Nat) : Bool := 0x80 ≤ b && b ≤ 0xBF

/-- Decode one UTF-8 sequence starting at byte `b` with lookahead `rest`;
returns the decoded character and how many bytes of `rest` were consumed.
Malformed input yields the replacement character for the maximal valid
subpart, as CPython's `errors='replace'` handler does. -/
def utf8Step (b : Nat) (rest : List Nat) : Char × Nat :=
  if b < 0x80 then (Char.ofNat b, 0)
  else if 0xC2 ≤ b ∧ b ≤ 0xDF then
    match rest with
    | b1 :: _ =>
      if isCont b1 then (Char.ofNat ((b - 0xC0) * 64 + (b1 - 0x80)), 1)
      else (replChar, 0)
    | [] => (replChar, 0)
  else if 0xE0 ≤ b ∧ b ≤ 0xEF then
    match rest with
    | b1 :: rest1 =>
      let lo := if b = 0xE0 then 0xA0 else 0x80
      let hi := if b = 0xED then 0x9F else 0xBF
      if lo ≤ b1 ∧ b1 ≤ hi then
        match rest1 with
        | b2 :: _ =>
          if isCont b2 then
            (Char.ofNat ((b - 0xE0) * 4096 + (b1 - 0x80) * 64 + (b2 - 0x80)), 2)
          else (replChar, 1)
        | [] => (replChar, 1)
      else (replChar, 0)
    | [] => (replChar, 0)
  else if 0xF0 ≤ b ∧ b ≤ 0xF4 then
    match rest with
    | b1 :: rest1 =>
      let lo := if b = 0xF0 then 0x90 else 0x80
      let hi := if b = 0xF4 then 0x8F else 0xBF
      if lo ≤ b1 ∧ b1 ≤ hi then
        match rest1 with
        | b2 :: rest2 =>
          if isCont b2 then
            match rest2 with
            | b3 :: _ =>
              if isCont b3 then
                (Char.ofNat ((b - 0xF0) * 262144 + (b1 - 0x80) * 4096 +
                  (b2 - 0x80) * 64 + (b3 - 0x80)), 3)
              else (replChar, 2)
            | [] => (replChar, 2)
          else (replChar, 1)
        | [] => (replChar, 1)
      else (replChar, 0)
    | [] => (replChar, 0)
  else (replChar, 0)

/-- Decode a byte list into characters; the fuel is the list length (each
step consumes at least the head byte, so `bs.length` units always suffice). -/
def utf8Chars : Nat → List Nat → List Char
  | 0, _ => []
  | _, [] => []
  | fuel + 1, b :: rest =>
    let s := utf8Step b rest
    s.1 :: utf8Chars fuel (rest.drop s.2)

/-- `bytes.decode('utf-8', errors='replace')`. -/
def decodeUtf8Replace (bs : List Nat) : String := ⟨utf8Chars bs.length bs⟩

/-- ZIP signatures (zipread.py lines 18–22). -/
def zipLocalHeaderSig : List Nat := [0x50, 0x4B, 0x03, 0x04]

/-- Central-directory record signature `PK\x01\x02`. -/
def zipCDSig : List Nat := [0x50, 0x4B, 0x01, 0x02]

/-- End-of-central-directory signature `PK\x05\x06`. -/
def zipEOCDSig : List Nat := [0x50, 0x4B, 0x05, 0x06]

/-- ZIP64 EOCD signature `PK\x06\x06`. -/
def zipEOCD64Sig : List Nat := [0x50, 0x4B, 0x06, 0x06]

/-- ZIP64 EOCD locator signature `PK\x06\x07`. -/
def zipEOCD64LocSig : List Nat := [0x50, 0x4B, 0x06, 0x07]

/-- `ZIP64_MARKER = 0xFFFFFFFF`. -/
def zip64Marker : Nat := 0xFFFFFFFF

/-- `MAX_EOCD_SEARCH_SIZE = 65536 + 22` (zipread.py line 39). -/
def maxEocdSearchSize : Nat := 65536 + 22

/-- Decidable equality for `Except` results (core does not provide one). -/
instance {ε α : Type} [DecidableEq ε] [DecidableEq α] : DecidableEq (Except ε α) :=
  fun x y =>
    match x, y with
    | .ok a, .ok b =>
      if h : a = b then .isTrue (by rw [h])
      else .isFalse (by intro hc; cases hc; exact h rfl)
    | .error a, .error b =>
      if h : a = b then .isTrue (by rw [h])
      else .isFalse (by intro hc; cases hc; exact h rfl)
    | .ok _, .error _ => .isFalse (by intro hc; cases hc)
    | .error _, .ok _ => .isFalse (by intro hc; cases hc)

/-- The Python exception taxonomy of both modules (messages elided).
`structError` models CPython's `struct.error` from an `unpack` on a
too-short slice (never caught by the source). -/
inductive ZipErr where
  | invalidZip
  | fileNotFound
  | valueError
  | notOpened
  | structError
deriving DecidableEq, Repr

/-- `ZipEntry` — one parsed central-directory record (zipread.py lines 42–56,
identical dataclass in ozxzip.py lines 54–77). -/
structure ZipEntry where
  filename : String
  compressed_size : Nat
  uncompressed_size : Nat
  compression_method : Nat
  local_header_offset : Nat
  crc32 : Nat
  extra_field : List Nat
deriving DecidableEq, Repr

/-- Python `str.endswith`, over the character sequences of the strings
(kernel-reducible, unlike the byte-position-based library version). -/
def strEndsWith (s suffix : String) : Bool := suffix.data.isSuffixOf s.data

/-- Python `str.lower` (ASCII case mapping, as the filenames here use). -/
def strToLower (s : String) : String := ⟨s.data.map Char.toLower⟩

/-- `ZipEntry.is_directory`: the filename ends with a slash. -/
def ZipEntry.is_directory (e : ZipEntry) : Bool := strEndsWith e.filename "/"

/-- `ZipEntry.is_json_file` (ozxzip.py lines 70–77): case-insensitive
suffix check for the four JSON-metadata extensions. -/
def ZipEntry.is_json_file (e : ZipEntry) : Bool :=
  let name := strToLower e.filename
  strEndsWith name ".json" || strEndsWith name ".zattrs" ||
    strEndsWith name ".zarray" || strEndsWith name ".zgroup"

/-- `OZXMetadata` (ozxzip.py lines 46–51). -/
structure OZXMetadata where
  version : String
  json_first : Bool
  raw_comment : Option String
deriving DecidableEq, Repr

/-- Python-dict model: insertion-ordered association list where assigning to
an existing key replaces its value in place (`entries[filename] = entry`). -/
def upsert (m : List (String × ZipEntry)) (k : String) (v : ZipEntry) :
    List (String × ZipEntry) :=
  match m with
  | [] => [(k, v)]
  | (k', v') :: rest =>
    if k' = k then (k, v) :: rest else (k', v') :: upsert rest k v

/-- `dict.get(path)`. -/
def lookupEntry (m : List (String × ZipEntry)) (k : String) : Option ZipEntry :=
  match m with
  | [] => none
  | (k', v') :: rest => if k' = k then some v' else lookupEntry rest k

/-- `self._entries.update(entries)` — merge the per-call dict into the
registry, key by key in insertion order. -/
def updateEntries (old new : List (String × ZipEntry)) : List (String × ZipEntry) :=
  new.foldl (fun m kv => upsert m kv.1 kv.2) old

/-- The mutable fields of `ZipReader`/`OZXReader` (constructors at
zipread.py lines 85–100 and ozxzip.py lines 111–126). `opened` stands for
`self._fh is not None`; the file-handle position is not tracked (see the
module comment). -/
structure ReaderState where
  opened : Bool
  fileData : List Nat
  comment : String
  metadata : Option OZXMetadata
  entries : List (String × ZipEntry)
  cdOffset : Nat
  cdSize : Nat
  cdEntriesCount : Nat
  isZip64 : Bool
  cdParsed : Bool
deriving DecidableEq, Repr

/-- Inner block scan of `_parse_zip64_extra` (zipread.py lines 575–599):
walk `(header_id, data_size)` blocks; at the first ZIP64 block (id 1),
replace each field that still holds the 32-bit sentinel with the next
8-byte value, as long as the block data has 8 more bytes. The fuel is
`extra.length + 1`: each continuing iteration advances `offset` by at least
4 while requiring `offset + 4 ≤ extra.length`. -/
def zip64ExtraLoop (extra : List Nat) :
    Nat → Nat → Nat → Nat → Nat → Nat × Nat × Nat
  | 0, _, compSize, uncompSize, localOffset => (compSize, uncompSize, localOffset)
  | fuel + 1, offset, compSize, uncompSize, localOffset =>
    if offset + 4 ≤ extra.length then
      let headerId := le16At extra offset
      let dataSize := le16At extra (offset + 2)
      if headerId = 1 then
        let data := (extra.drop (offset + 4)).take dataSize
        let u := if uncompSize = zip64Marker ∧ 8 ≤ data.length
          then le64At data 0 else uncompSize
        let idx1 := if uncompSize = zip64Marker ∧ 8 ≤ data.length then 8 else 0
        let c := if compSize = zip64Marker ∧ idx1 + 8 ≤ data.length
          then le64At data idx1 else compSize
        let idx2 := if compSize = zip64Marker ∧ idx1 + 8 ≤ data.length
          then idx1 + 8 else idx1
        let l := if localOffset = zip64Marker ∧ idx2 + 8 ≤ data.length
          then le64At data idx2 else localOffset
        (c, u, l)
      else zip64ExtraLoop extra fuel (offset + 4 + dataSize) compSize uncompSize localOffset
    else (compSize, uncompSize, localOffset)

/-- `ZipReader._parse_zip64_extra` (zipread.py lines 562–601; identical in
ozxzip.py lines 627–666): returns `(comp_size, uncomp_size, local_offset)`
with ZIP64 overrides applied where available. -/
def parseZip64Extra (extra : List Nat) (compSize uncompSize localOffset : Nat) :
    Nat × Nat × Nat :=
  zip64ExtraLoop extra (extra.length + 1) 0 compSize uncompSize localOffset

/-- One iteration body of the central-directory loop (zipread.py lines
196–231, byte-identical logic in ozxzip.py lines 199–234): read the 46-byte
header, validate length and signature, unpack the fields, read the
filename and extra field, skip the comment, apply ZIP64 overrides, and
return the entry together with the offset of the next record. -/
def parseCDEntryAt (file : List Nat) (pos : Nat) : Except ZipErr (ZipEntry × Nat) :=
  let header := readAt file pos 46
  if header.length < 46 ∨ header.take 4 ≠ zipCDSig then .error .invalidZip
  else
    let compression := le16At header 10
    let crc32 := le32At header 16
    let compSize0 := le32At header 20
    let uncompSize0 := le32At header 24
    let nameLen := le16At header 28
    let extraLen := le16At header 30
    let commentLen := le16At header 32
    let localOffset0 := le32At header 42
    let nameBytes := readAt file (pos + 46) nameLen
    let extra := if extraLen > 0 then readAt file (pos + 46 + nameLen) extraLen else []
    let resolved :=
      if compSize0 = zip64Marker ∨ uncompSize0 = zip64Marker ∨ localOffset0 = zip64Marker
      then parseZip64Extra extra compSize0 uncompSize0 localOffset0
      else (compSize0, uncompSize0, localOffset0)
    let entry : ZipEntry :=
      { filename := decodeUtf8Replace nameBytes
        compressed_size := resolved.1
        uncompressed_size := resolved.2.1
        compression_method := compression
        local_header_offset := resolved.2.2
        crc32 := crc32
        extra_field := extra }
    .ok (entry, pos + 46 + nameLen + extraLen + commentLen)

/-- `max_entries is not None and i >= max_entries`. -/
def maxCheck : Option Nat → Nat → Bool
  | some m, i => m ≤ i
  | none, _ => false

/-- `stop_condition and stop_condition(entry, i)`. -/
def stopCheck : Option (ZipEntry → Nat → Bool) → ZipEntry → Nat → Bool
  | some f, e, i => f e i
  | none, _, _ => false

/-- The `for i in range(self._cd_entries_count)` loop of
`ZipReader.parse_central_directory` (zipread.py lines 190–238), recursing on
the number of directory records left. The per-call dict `entries` is the
accumulator `acc`. -/
def zipParseLoop (file : List Nat) (stopCond : Option (ZipEntry → Nat → Bool))
    (maxEntries : Option Nat) :
    Nat → Nat → Nat → List (String × ZipEntry) →
      Except ZipErr (List (String × ZipEntry))
  | 0, _, _, acc => .ok acc
  | n + 1, i, pos, acc =>
    if maxCheck maxEntries i then .ok acc
    else
      match parseCDEntryAt file pos with
      | .error e => .error e
      | .ok (entry, newPos) =>
        let acc' := upsert acc entry.filename entry
        if stopCheck stopCond entry i then .ok acc'
        else zipParseLoop file stopCond maxEntries n (i + 1) newPos acc'

/-- `ZipReader.parse_central_directory` (zipread.py lines 155–244). On
success the per-call dict is merged into the registry and `_cd_parsed` is
set only when neither a stop condition nor a bound was given; on an
exception nothing is merged (the `update` on line 240 is never reached), so
the state is returned unchanged. -/
def parseCentralDirectory (st : ReaderState)
    (stopCond : Option (ZipEntry → Nat → Bool)) (maxEntries : Option Nat) :
    ReaderState × Except ZipErr (List (String × ZipEntry)) :=
  if st.opened = false then (st, .error .notOpened)
  else if st.cdParsed then (st, .ok st.entries)
  else
    match zipParseLoop st.fileData stopCond maxEntries st.cdEntriesCount 0 st.cdOffset [] with
    | .error e => (st, .error e)
    | .ok newEntries =>
      ({ st with
          entries := updateEntries st.entries newEntries
          cdParsed := if stopCond.isNone ∧ maxEntries.isNone then true else st.cdParsed },
        .ok newEntries)

/-- The record loop of `OZXReader.parse_central_directory` (ozxzip.py lines
198–242). `stopOn` is the constant value of
`json_only and self._metadata and self._metadata.json_first`; when it holds,
the loop breaks right after inserting the first entry that is neither a
directory nor a JSON metadata file. -/
def ozxParseLoop (file : List Nat) (stopOn : Bool) :
    Nat → Nat → List (String × ZipEntry) → Except ZipErr (List (String × ZipEntry))
  | 0, _, acc => .ok acc
  | n + 1, pos, acc =>
    match parseCDEntryAt file pos with
    | .error e => .error e
    | .ok (entry, newPos) =>
      let acc' := upsert acc entry.filename entry
      if stopOn && !entry.is_directory && !entry.is_json_file then .ok acc'
      else ozxParseLoop file stopOn n newPos acc'

/-- `OZXReader.parse_central_directory` (ozxzip.py lines 174–248). -/
def ozxParseCD (st : ReaderState) (jsonOnly : Bool) :
    ReaderState × Except ZipErr (List (String × ZipEntry)) :=
  if st.opened = false then (st, .error .notOpened)
  else if st.cdParsed && !jsonOnly then (st, .ok st.entries)
  else
    let stopOn := jsonOnly && (match st.metadata with
      | some m => m.json_first
      | none => false)
    match ozxParseLoop st.fileData stopOn st.cdEntriesCount st.cdOffset [] with
    | .error e => (st, .error e)
    | .ok newEntries =>
      ({ st with
          entries := updateEntries st.entries newEntries
          cdParsed := if !jsonOnly then true else st.cdParsed },
        .ok newEntries)

/-- `ZipReader.get_entry` (zipread.py lines 264–275): parse the whole
directory if not yet parsed (exceptions propagate), then look the path up
in the registry. -/
def getEntry (st : ReaderState) (path : String) :
    ReaderState × Except ZipErr (Option ZipEntry) :=
  if st.cdParsed = false then
    match parseCentralDirectory st none none with
    | (st1, .error e) => (st1, .error e)
    | (st1, .ok _) => (st1, .ok (lookupEntry st1.entries path))
  else (st, .ok (lookupEntry st.entries path))

/-- Model of a `zlib.decompressobj(-zlib.MAX_WBITS)` instance: a
deterministic stream function. `out fed` is the cumulative output of all
`decompress` calls after `fed` bytes of input; one `decompress(chunk)` call
therefore returns `(out (fed ++ chunk)).drop (out fed).length`. `flushOut
fed` is what `flush()` returns after `fed` bytes of input. -/
structure DeflateModel where
  out : List Nat → List Nat
  flushOut : List Nat → List Nat

/-- The two facts about zlib the proofs use: no input yields no output, and
the cumulative output only ever grows at the end. -/
def DeflateModel.Lawful (D : DeflateModel) : Prop :=
  D.out [] = [] ∧ ∀ xs ys, ∃ t, D.out (xs ++ ys) = D.out xs ++ t

/-- The STORE streaming loop (zipread.py lines 326–333, and the same loop
with an initial relative seek at lines 405–416): read `min(buffer_size,
remaining)` bytes, stop on a zero-length read. Fuel: each continuing
iteration reads at least one byte, so the initial `remaining` suffices. -/
def storeLoop (file : List Nat) (bufSize : Nat) :
    Nat → Nat → Nat → List (List Nat)
  | 0, _, _ => []
  | fuel + 1, pos, remaining =>
    if remaining = 0 then []
    else
      let chunk := readAt file pos (min bufSize remaining)
      if chunk = [] then []
      else chunk :: storeLoop file bufSize fuel (pos + chunk.length) (remaining - chunk.length)

/-- The DEFLATE loop of `stream_file` (zipread.py lines 340–349): feed the
decompressor chunkwise, yield every non-empty piece of output. Fuel: the
initial `compressed_remaining`. -/
def deflStreamLoop (D : DeflateModel) (file : List Nat) (bufSize : Nat) :
    Nat → Nat → Nat → List Nat → List (List Nat) × List Nat
  | 0, _, _, fed => ([], fed)
  | fuel + 1, pos, compRem, fed =>
    if compRem = 0 then ([], fed)
    else
      let chunk := readAt file pos (min bufSize compRem)
      if chunk = [] then ([], fed)
      else
        let fed' := fed ++ chunk
        let d := (D.out fed').drop (D.out fed).length
        let rest := deflStreamLoop D file bufSize fuel (pos + chunk.length)
          (compRem - chunk.length) fed'
        (if d = [] then rest.1 else d :: rest.1, rest.2)

/-- The DEFLATE loop of `stream_file_range` (zipread.py lines 426–457,
identical in ozxzip.py lines 431–462): feed the decompressor chunkwise,
discard output before `start`, yield at most `output_remaining` bytes,
stop once the range is filled. Returns the yielded chunks and the final
`(fed, decompressed_pos, output_remaining)`. Fuel: the initial
`compressed_remaining`. -/
def deflRangeLoop (D : DeflateModel) (file : List Nat) (bufSize startN : Nat) :
    Nat → Nat → Nat → List Nat → Nat → Nat →
      List (List Nat) × List Nat × Nat × Nat
  | 0, _, _, fed, dp, outRem => ([], fed, dp, outRem)
  | fuel + 1, pos, compRem, fed, dp, outRem =>
    if compRem = 0 ∨ outRem = 0 then ([], fed, dp, outRem)
    else
      let chunk := readAt file pos (min bufSize compRem)
      if chunk = [] then ([], fed, dp, outRem)
      else
        let compRem' := compRem - chunk.length
        let pos' := pos + chunk.length
        let fed' := fed ++ chunk
        let d := (D.out fed').drop (D.out fed).length
        if d = [] then deflRangeLoop D file bufSize startN fuel pos' compRem' fed' dp outRem
        else if dp + d.length ≤ startN then
          deflRangeLoop D file bufSize startN fuel pos' compRem' fed' (dp + d.length) outRem
        else
          let chunkStart := if dp < startN then startN - dp else 0
          let outputBytes := min (d.length - chunkStart) outRem
          let piece := (d.drop chunkStart).take outputBytes
          let rest := deflRangeLoop D file bufSize startN fuel pos' compRem' fed'
            (dp + d.length) (outRem - outputBytes)
          (if outputBytes > 0 then piece :: rest.1 else rest.1, rest.2)

/-- The flush fix-up at the end of the range loop (zipread.py lines
459–469): when the range is not yet filled, flush the decompressor and
apply the same skip/emit logic to the final chunk. -/
def deflRangeFlush (D : DeflateModel) (startN : Nat)
    (fed : List Nat) (dp outRem : Nat) : List (List Nat) :=
  if outRem > 0 then
    let fin := D.flushOut fed
    if fin ≠ [] then
      if dp + fin.length > startN then
        let chunkStart := startN - dp
        let outputBytes := min (fin.length - chunkStart) outRem
        if outputBytes > 0 then [(fin.drop chunkStart).take outputBytes] else []
      else []
    else []
  else []

/-- Locate the file data of an entry: seek to `local_header_offset`, read
the 30-byte local header, validate the signature, unpack the local name
and extra lengths, and return the offset of the raw data (zipread.py lines
312–321, 396–403). `struct.unpack` on a short slice is `structError`. -/
def localDataOffset (file : List Nat) (e : ZipEntry) : Except ZipErr Nat :=
  let localHeader := readAt file e.local_header_offset 30
  if localHeader.take 4 ≠ zipLocalHeaderSig then .error .invalidZip
  else if localHeader.length < 30 then .error .structError
  else
    let nameLen := le16At localHeader 26
    let extraLen := le16At localHeader 28
    .ok (e.local_header_offset + 30 + nameLen + extraLen)

/-- The body of `stream_file` after entry resolution (zipread.py lines
312–356): STORE streams raw bytes, DEFLATE feeds the decompressor and
flushes at the end, anything else is `InvalidZipError`. -/
def streamEntryFull (D : DeflateModel) (file : List Nat) (e : ZipEntry)
    (bufSize : Nat) : Except ZipErr (List (List Nat)) :=
  match localDataOffset file e with
  | .error err => .error err
  | .ok dataOff =>
    if e.compression_method = 0 then
      .ok (storeLoop file bufSize e.uncompressed_size dataOff e.uncompressed_size)
    else if e.compression_method = 8 then
      let res := deflStreamLoop D file bufSize e.compressed_size dataOff e.compressed_size []
      let fin := D.flushOut res.2
      .ok (res.1 ++ if fin = [] then [] else [fin])
    else .error .invalidZip

/-- `ZipReader.stream_file` (zipread.py lines 292–356; ozxzip.py lines
296–360 is identical). Returns the updated state (entry resolution may
parse the directory) and the yielded chunks. -/
def streamFile (D : DeflateModel) (st : ReaderState) (path : String)
    (bufSize : Nat) : ReaderState × Except ZipErr (List (List Nat)) :=
  if st.opened = false then (st, .error .notOpened)
  else
    match getEntry st path with
    | (st1, .error e) => (st1, .error e)
    | (st1, .ok none) => (st1, .error .fileNotFound)
    | (st1, .ok (some entry)) => (st1, streamEntryFull D st1.fileData entry bufSize)

/-- The body of `stream_file_range` after entry resolution and range
validation (zipread.py lines 396–471): `startN` and `rangeLength` are the
validated, clamped bounds. -/
def rangeFromEntry (D : DeflateModel) (file : List Nat) (e : ZipEntry)
    (startN rangeLength bufSize : Nat) : Except ZipErr (List (List Nat)) :=
  match localDataOffset file e with
  | .error err => .error err
  | .ok dataOff =>
    if e.compression_method = 0 then
      .ok (storeLoop file bufSize rangeLength (dataOff + startN) rangeLength)
    else if e.compression_method = 8 then
      let res := deflRangeLoop D file bufSize startN e.compressed_size dataOff
        e.compressed_size [] 0 rangeLength
      .ok (res.1 ++ deflRangeFlush D startN res.2.1 res.2.2.1 res.2.2.2)
    else .error .invalidZip

/-- `ZipReader.stream_file_range` (zipread.py lines 358–471; ozxzip.py
lines 362–476 is identical up to a dead `BytesIO` local): resolve the
entry, validate the inclusive range, return early on `start` past the end,
clamp `end`, then extract. `start`/`stop` are `Int` because Python permits
negative arguments; `stop` is the source's `end` (a reserved word here). -/
def streamFileRange (D : DeflateModel) (st : ReaderState) (path : String)
    (start stop : Int) (bufSize : Nat) :
    ReaderState × Except ZipErr (List (List Nat)) :=
  if st.opened = false then (st, .error .notOpened)
  else
    match getEntry st path with
    | (st1, .error e) => (st1, .error e)
    | (st1, .ok none) => (st1, .error .fileNotFound)
    | (st1, .ok (some entry)) =>
      if start < 0 then (st1, .error .valueError)
      else if stop < start then (st1, .error .valueError)
      else if (entry.uncompressed_size : Int) ≤ start then (st1, .ok [])
      else
        let startN := start.toNat
        let stopN := min stop.toNat (entry.uncompressed_size - 1)
        let rangeLength := stopN - startN + 1
        (st1, rangeFromEntry D st1.fileData entry startN rangeLength bufSize)

/-- `bytes.rfind(sub)` — scan candidate start positions from high to low;
`sigOccursAt` is "`sub` occurs at index `j`". -/
def sigOccursAt (data sig : List Nat) (j : Nat) : Bool :=
  decide ((data.drop j).take sig.length = sig)

/-- Backward search from index `n` down to 0. -/
def rfindFrom (data sig : List Nat) : Nat → Option Nat
  | 0 => if sigOccursAt data sig 0 then some 0 else none
  | j + 1 => if sigOccursAt data sig (j + 1) then some (j + 1) else rfindFrom data sig j

/-- `data.rfind(sig)`: the highest index at which `sig` occurs. -/
def bytesRfind (data sig : List Nat) : Option Nat :=
  rfindFrom data sig data.length

/-- The tail window `_parse_eocd` scans: the last
`min(MAX_EOCD_SEARCH_SIZE, file_size)` bytes (zipread.py lines 483–485). -/
def eocdWindow (file : List Nat) : List Nat :=
  readAt file (file.length - min maxEocdSearchSize file.length)
    (min maxEocdSearchSize file.length)

/-- `ZipReader._parse_zip64_eocd` (zipread.py lines 519–560): read the
20-byte ZIP64 EOCD locator immediately before the classic EOCD, follow its
64-bit offset to the ZIP64 EOCD record, and take the real 64-bit
`cd_offset`/`cd_size`/`cd_total_entries` from it. -/
def parseZip64Eocd (st : ReaderState) (eocdPos : Nat) : Except ZipErr ReaderState :=
  if eocdPos < 20 then .error .invalidZip
  else
    let locator := readAt st.fileData (eocdPos - 20) 20
    if locator.take 4 ≠ zipEOCD64LocSig then .error .invalidZip
    else if locator.length < 20 then .error .structError
    else
      let zip64EocdOffset := le64At locator 8
      let zip64Eocd := readAt st.fileData zip64EocdOffset 56
      if zip64Eocd.take 4 ≠ zipEOCD64Sig then .error .invalidZip
      else if zip64Eocd.length < 56 then .error .structError
      else
        .ok { st with
          cdOffset := le64At zip64Eocd 48
          cdSize := le64At zip64Eocd 40
          cdEntriesCount := le64At zip64Eocd 32 }

/-- `ZipReader._parse_eocd` (zipread.py lines 473–517): scan the tail
window for the rightmost EOCD signature, unpack the record, read the
comment (kept only when the declared length is fully available), and
switch to the ZIP64 records when any sentinel field is present. -/
def parseEocd (st : ReaderState) : Except ZipErr ReaderState :=
  if st.opened = false then .error .notOpened
  else
    let fileSize := st.fileData.length
    let searchSize := min maxEocdSearchSize fileSize
    let data := readAt st.fileData (fileSize - searchSize) searchSize
    match bytesRfind data zipEOCDSig with
    | none => .error .invalidZip
    | some eocdPos =>
      let eocdFilePos := fileSize - searchSize + eocdPos
      let eocd := (data.drop eocdPos).take 22
      if eocd.length < 22 then .error .invalidZip
      else
        let cdEntriesTotal := le16At eocd 10
        let cdSizeV := le32At eocd 12
        let cdOffsetV := le32At eocd 16
        let commentLen := le16At eocd 20
        let comment :=
          if commentLen > 0 then
            let commentData := (data.drop (eocdPos + 22)).take commentLen
            if commentData.length = commentLen then decodeUtf8Replace commentData
            else st.comment
          else st.comment
        if cdOffsetV = zip64Marker ∨ cdSizeV = zip64Marker ∨ cdEntriesTotal = 0xFFFF then
          parseZip64Eocd { st with comment := comment, isZip64 := true } eocdFilePos
        else
          .ok { st with
            comment := comment
            cdOffset := cdOffsetV
            cdSize := cdSizeV
            cdEntriesCount := cdEntriesTotal }

/-- JSON values as produced by `json.loads`, with numbers restricted to
integers (no claim depends on float formatting). Objects are
insertion-ordered key/value lists. -/
inductive JVal where
  | null
  | bool (b : Bool)
  | int (n : Int)
  | str (s : String)
  | arr (xs : List JVal)
  | obj (kvs : List (String × JVal))

/-- `'k' in d` / `d['k']` / `d.get('k')` on a JSON object. -/
def jLookup (kvs : List (String × JVal)) (k : String) : Option JVal :=
  match kvs with
  | [] => none
  | (k', v) :: rest => if k' = k then some v else jLookup rest k

/-- Python `str()` of a JSON value (containers abbreviated: the OME
`version` is a string or number in every case the source handles). -/
def pyStr : JVal → String
  | .null => "None"
  | .bool true => "True"
  | .bool false => "False"
  | .int n => toString n
  | .str s => s
  | .arr _ => "[...]"
  | .obj _ => "{...}"

/-- Python `bool()` truthiness of a JSON value. -/
def pyTruthy : JVal → Bool
  | .null => false
  | .bool b => b
  | .int n => n ≠ 0
  | .str s => s ≠ ""
  | .arr xs => !xs.isEmpty
  | .obj kvs => !kvs.isEmpty

/-- `OZXReader._parse_zip_comment` (ozxzip.py lines 571–625), with
`json.loads` passed in as `loads` (`none` models a `JSONDecodeError`).
Returns `None` for an empty comment, unparseable JSON, a non-object
top level, a missing or non-object `ome`, or a missing `version`;
otherwise builds the metadata, reading `jsonFirst` through
`ome.zipFile.centralDirectory` with `{}` defaults at each level. -/
def parseZipComment (loads : String → Option JVal) (comment : String) :
    Option OZXMetadata :=
  if comment = "" then none
  else
    match loads comment with
    | none => none
    | some data =>
      match data with
      | .obj kvs =>
        match jLookup kvs "ome" with
        | none => none
        | some ome =>
          match ome with
          | .obj omeKvs =>
            match jLookup omeKvs "version" with
            | none => none
            | some v =>
              let jsonFirst :=
                match jLookup omeKvs "zipFile" with
                | some (.obj zfKvs) =>
                  (match jLookup zfKvs "centralDirectory" with
                   | some (.obj cdKvs) =>
                     (match jLookup cdKvs "jsonFirst" with
                      | some jv => pyTruthy jv
                      | none => false)
                   | _ => false)
                | _ => false
              some { version := pyStr v, json_first := jsonFirst, raw_comment := some comment }
          | _ => none
      | _ => none

/-- ASCII string to bytes (the concrete archives below use ASCII names). -/
def strBytes (s : String) : List Nat := s.data.map Char.toNat

/-- Build one central-directory record, mirroring the byte layout the
parser reads (and the fixture builder in tests/test_zipread.py). -/
def mkCDRecord (name : String) (compression crc compSize uncompSize localOff : Nat)
    (extra : List Nat) : List Nat :=
  zipCDSig ++ le16B 20 ++ le16B 20 ++ le16B 0 ++ le16B compression ++ le16B 0 ++
    le16B 0 ++ le32B crc ++ le32B compSize ++ le32B uncompSize ++
    le16B (strBytes name).length ++ le16B extra.length ++ le16B 0 ++ le16B 0 ++
    le16B 0 ++ le32B 0 ++ le32B localOff ++ strBytes name ++ extra

/-- Build one local file header followed by its (possibly compressed) data. -/
def mkLocalEntry (name : String) (compression crc : Nat) (compData : List Nat)
    (uncompSize : Nat) : List Nat :=
  zipLocalHeaderSig ++ le16B 20 ++ le16B 0 ++ le16B compression ++ le16B 0 ++
    le16B 0 ++ le32B crc ++ le32B compData.length ++ le32B uncompSize ++
    le16B (strBytes name).length ++ le16B 0 ++ strBytes name ++ compData

/-- A reader state over raw bytes with the central directory at `off`
holding `n` records, as `open()` leaves it for such an archive. -/
def mkState (file : List Nat) (off n : Nat) (meta : Option OZXMetadata) : ReaderState :=
  { opened := true, fileData := file, comment := "", metadata := meta, entries := [],
    cdOffset := off, cdSize := 0, cdEntriesCount := n, isZip64 := false, cdParsed := false }

/-- The 4-entry archive of tests/test_zipread_resume.py (central directory
only; the resumability claim never touches the local headers). -/
def c1CD : List Nat :=
  mkCDRecord "file1.txt" 0 0 8 8 0 [] ++ mkCDRecord "file2.txt" 0 0 8 8 100 [] ++
    mkCDRecord "file3.txt" 0 0 8 8 200 [] ++ mkCDRecord "file4.txt" 0 0 8 8 300 []

/-- Reader state for the 4-entry archive, directory not yet parsed. -/
def c1State : ReaderState := mkState c1CD 0 4 none

/-- A directory whose record 0 is valid and whose record 1 is garbage
(46 zero bytes: signature mismatch). -/
def c2CD : List Nat := mkCDRecord "a.txt" 0 0 8 8 0 [] ++ List.replicate 46 0

/-- Reader state declaring two records over `c2CD`. -/
def c2State : ReaderState := mkState c2CD 0 2 none

/-- A single record whose 32-bit compressed size is the ZIP64 sentinel and
whose extra field is empty, so no override is available. -/
def c8CD : List Nat := mkCDRecord "f" 0 0 4294967295 5 0 []

/-- Reader state for the sentinel archive. -/
def c8State : ReaderState := mkState c8CD 0 1 none

/-- jsonFirst-ordered directory: a directory entry, a JSON metadata file, a
binary chunk, then another JSON file that must never be reached. -/
def c5CD : List Nat :=
  mkCDRecord "a/" 0 0 0 0 0 [] ++ mkCDRecord "a/.zattrs" 0 0 6 6 50 [] ++
    mkCDRecord "a/0" 0 0 9 9 120 [] ++ mkCDRecord "b.json" 0 0 4 4 220 []

/-- Reader state for the jsonFirst archive, with RFC-9 metadata attached. -/
def c5State : ReaderState :=
  mkState c5CD 0 4 (some { version := "0.5", json_first := true, raw_comment := some "c" })

/-! ## Claim C1 — resumable central-directory parsing -/

/-- Claim C1 (code behaviour at the failing input): on the 4-entry archive,
a call bounded to 2 entries leaves the registry holding {file1, file2}; the
next call bounded to 1 does NOT resume at entry 3 — it re-parses from the
directory start, returns only {file1}, and leaves file3 unparsed, so the
registry still holds {file1, file2}; an unbounded third call then parses
all four. This contradicts the claimed resume semantics (and the repo's
own tests/test_zipread_resume.py), which expect the registry to hold
{file1, file2, file3} after the second call. -/
theorem C1_parse_restarts_at_directory_start :
    ((parseCentralDirectory c1State none (some 2)).1.entries.map Prod.fst =
      ["file1.txt", "file2.txt"]) ∧
    ((parseCentralDirectory (parseCentralDirectory c1State none (some 2)).1
        none (some 1)).2 =
      .ok [("file1.txt",
        { filename := "file1.txt", compressed_size := 8, uncompressed_size := 8,
          compression_method := 0, local_header_offset := 0, crc32 := 0,
          extra_field := [] })]) ∧
    ((parseCentralDirectory (parseCentralDirectory c1State none (some 2)).1
        none (some 1)).1.entries.map Prod.fst = ["file1.txt", "file2.txt"]) ∧
    (lookupEntry (parseCentralDirectory (parseCentralDirectory c1State none
        (some 2)).1 none (some 1)).1.entries "file3.txt" = none) ∧
    ((parseCentralDirectory (parseCentralDirectory (parseCentralDirectory
        c1State none (some 2)).1 none (some 1)).1 none none).1.entries.map
        Prod.fst = ["file1.txt", "file2.txt", "file3.txt", "file4.txt"]) := by
  decide

/-! ## Claim C2 — retention of records parsed before a malformed record -/

/-- Claim C2 counterexample: on an archive whose record 0 is valid and
whose record 1 is malformed, `parse_central_directory` raises
`InvalidZipError`, and record 0 — although parsed successfully earlier in
that same call — is NOT retained: the exception propagates before the
`self._entries.update(entries)` on line 240, so the registry is left
empty. -/
theorem C2_counterexample_in_call_records_discarded :
    ((parseCDEntryAt c2CD 0).map (fun p => (p.1.filename, p.2)) =
      .ok ("a.txt", 51)) ∧
    (parseCentralDirectory c2State none none = (c2State, .error .invalidZip)) ∧
    ((parseCentralDirectory c2State none none).1.entries = []) := by
  decide

/-- Claim C2 (amended): when `parse_central_directory` raises, the reader
state — in particular the entry registry — is exactly what it was before
the call: entries from previous calls remain valid and retained, while the
records parsed earlier in the failing call are discarded. -/
theorem C2_amended_registry_unchanged_on_error (st : ReaderState)
    (stopCond : Option (ZipEntry → Nat → Bool)) (maxEntries : Option Nat)
    (e : ZipErr)
    (h : (parseCentralDirectory st stopCond maxEntries).2 = .error e) :
    (parseCentralDirectory st stopCond maxEntries).1 = st := by
  unfold parseCentralDirectory at h ⊢
  by_cases h1 : st.opened = false
  · simp [h1]
  · by_cases h2 : st.cdParsed = true
    · simp [h1, h2] at h
    · rcases hz : zipParseLoop st.fileData stopCond maxEntries st.cdEntriesCount
        0 st.cdOffset [] with err | es
      · simp [h1, h2, hz]
      · simp [h1, h2, hz] at h

/-- Witness for the amended C2 theorem at the concrete malformed archive. -/
theorem C2_amended_witness :
    (parseCentralDirectory c2State none none).1 = c2State :=
  C2_amended_registry_unchanged_on_error c2State none none .invalidZip (by decide)

/-! ## Claim C8 — ZIP64 sentinel resolution -/

/-- Claim C8 counterexample: a central-directory record whose 32-bit
compressed size is the sentinel `0xFFFFFFFF` but whose extra field is
empty parses without error, and the exposed entry still carries the
sentinel value in `compressed_size` — callers do see `0xFFFFFFFF`. -/
theorem C8_counterexample_sentinel_exposed :
    ((parseCentralDirectory c8State none none).2 =
      .ok [("f",
        { filename := "f", compressed_size := 4294967295, uncompressed_size := 5,
          compression_method := 0, local_header_offset := 0, crc32 := 0,
          extra_field := [] })]) ∧
    (lookupEntry (parseCentralDirectory c8State none none).1.entries "f" =
      some { filename := "f", compressed_size := 4294967295,
             uncompressed_size := 5, compression_method := 0,
             local_header_offset := 0, crc32 := 0, extra_field := [] }) ∧
    (4294967295 = zip64Marker) := by
  decide

/-- Reading a byte past a prefix reads it in the suffix. -/
theorem byteAt_append_right (pre suf : List Nat) (i : Nat) :
    byteAt (pre ++ suf) (pre.length + i) = byteAt suf i := by
  unfold byteAt
  rw [List.getD_append_right pre suf 0 (pre.length + i) (by omega)]
  congr 1
  omega

/-- Dropping past a prefix drops within the suffix. -/
theorem drop_append_add (pre suf : List Nat) (k : Nat) :
    (pre ++ suf).drop (pre.length + k) = suf.drop k := by
  rw [List.drop_append_eq_append_drop]
  rw [List.drop_eq_nil_of_le (by omega), List.nil_append]
  congr 1
  omega

/-- Reading a 16-bit value past a prefix reads it in the suffix. -/
theorem le16At_append_right (pre suf : List Nat) (off : Nat) :
    le16At (pre ++ suf) (pre.length + off) = le16At suf off := by
  unfold le16At
  rw [byteAt_append_right,
    show pre.length + off + 1 = pre.length + (off + 1) from by omega,
    byteAt_append_right]

/-- The extra-field block scan is fuel-insensitive once the fuel covers the
remaining length: every continuing iteration demands `offset + 4 ≤ length`
and advances `offset` by at least 4. -/
theorem zip64ExtraLoop_fuel (extra : List Nat) :
    ∀ f1 f2 off c u l, extra.length ≤ off + 4 * f1 → extra.length ≤ off + 4 * f2 →
      zip64ExtraLoop extra f1 off c u l = zip64ExtraLoop extra f2 off c u l := by
  intro f1
  induction f1 with
  | zero =>
    intro f2 off c u l h1 _
    cases f2 with
    | zero => rfl
    | succ f2 =>
      simp only [zip64ExtraLoop]
      rw [if_neg (by omega)]
  | succ f1 ih =>
    intro f2 off c u l h1 h2
    cases f2 with
    | zero =>
      simp only [zip64ExtraLoop]
      rw [if_neg (by omega)]
    | succ f2 =>
      simp only [zip64ExtraLoop]
      by_cases hg : off + 4 ≤ extra.length
      · rw [if_pos hg, if_pos hg]
        by_cases hid : le16At extra off = 1
        · rw [if_pos hid, if_pos hid]
        · rw [if_neg hid, if_neg hid]
          exact ih f2 (off + 4 + le16At extra (off + 2)) c u l (by omega) (by omega)
      · rw [if_neg hg, if_neg hg]

/-- Scanning the extra-field blocks past a prefix of the byte list is the
same as scanning the suffix: every read the loop performs is relative to
the running offset. -/
theorem zip64ExtraLoop_shift (pre suf : List Nat) :
    ∀ fuel off c u l,
      zip64ExtraLoop (pre ++ suf) fuel (pre.length + off) c u l =
        zip64ExtraLoop suf fuel off c u l := by
  intro fuel
  induction fuel with
  | zero => intro off c u l; rfl
  | succ f ih =>
    intro off c u l
    simp only [zip64ExtraLoop]
    by_cases hg : off + 4 ≤ suf.length
    · rw [if_pos hg,
        if_pos (show pre.length + off + 4 ≤ (pre ++ suf).length from by
          rw [List.length_append]; omega)]
      rw [le16At_append_right pre suf off,
        show pre.length + off + 2 = pre.length + (off + 2) from by omega,
        le16At_append_right pre suf (off + 2)]
      by_cases hid : le16At suf off = 1
      · rw [if_pos hid, if_pos hid,
          show pre.length + off + 4 = pre.length + (off + 4) from by omega,
          drop_append_add pre suf (off + 4)]
      · rw [if_neg hid, if_neg hid,
          show pre.length + off + 4 + le16At suf (off + 2) =
            pre.length + (off + 4 + le16At suf (off + 2)) from by omega]
        exact ih (off + 4 + le16At suf (off + 2)) c u l
    · rw [if_neg hg,
        if_neg (show ¬(pre.length + off + 4 ≤ (pre ++ suf).length) from by
          rw [List.length_append]; omega)]

/-- Spec-side cursor after the uncompressed-size slot: the ZIP64 block data
is consumed 8 bytes at a time from index 0 by each field that still holds
the sentinel, uncompressed size first (written from the amended claim's
words, to be compared with `parseZip64Extra`). -/
def specZip64Idx1 (u : Nat) (data : List Nat) : Nat :=
  if u = zip64Marker ∧ 8 ≤ data.length then 8 else 0

/-- Spec-side cursor after the compressed-size slot. -/
def specZip64Idx2 (c u : Nat) (data : List Nat) : Nat :=
  if c = zip64Marker ∧ specZip64Idx1 u data + 8 ≤ data.length
  then specZip64Idx1 u data + 8 else specZip64Idx1 u data

/-- The field triple a central-directory record exposes: the three 32-bit
values run through the ZIP64 resolution exactly when one of them is the
sentinel (written from the amended claim's words, to be compared with
`parseCDEntryAt`). -/
def specExposedTriple (extra : List Nat) (compSize uncompSize localOff : Nat) :
    Nat × Nat × Nat :=
  if compSize = zip64Marker ∨ uncompSize = zip64Marker ∨ localOff = zip64Marker
  then parseZip64Extra extra compSize uncompSize localOff
  else (compSize, uncompSize, localOff)

/-- A leading ZIP64 block with arbitrary data resolves each sentinel field
exactly when 8 more bytes remain at its cursor, and keeps the 32-bit value
— sentinel included — otherwise. -/
theorem parseZip64Extra_block (data rest : List Nat) (c u l : Nat)
    (hdl : data.length < 65536) :
    parseZip64Extra (([1, 0] ++ le16B data.length) ++ (data ++ rest)) c u l =
      ((if c = zip64Marker ∧ specZip64Idx1 u data + 8 ≤ data.length
          then le64At data (specZip64Idx1 u data) else c),
        (if u = zip64Marker ∧ 8 ≤ data.length then le64At data 0 else u),
        (if l = zip64Marker ∧ specZip64Idx2 c u data + 8 ≤ data.length
          then le64At data (specZip64Idx2 c u data) else l)) := by
  have hlen : (([1, 0] ++ le16B data.length) ++ (data ++ rest)).length =
      4 + (data.length + rest.length) := by
    simp only [le16B, List.length_append, List.length_cons, List.length_nil]
  have hid : le16At (([1, 0] ++ le16B data.length) ++ (data ++ rest)) 0 = 1 := by
    show 1 + 256 * 0 = 1
    norm_num
  have hds : le16At (([1, 0] ++ le16B data.length) ++ (data ++ rest)) (0 + 2) =
      data.length := by
    show data.length % 256 + 256 * (data.length / 256 % 256) = data.length
    omega
  have hdrop : (([1, 0] ++ le16B data.length) ++ (data ++ rest)).drop (0 + 4) =
      data ++ rest := rfl
  have hg : 0 + 4 ≤ (([1, 0] ++ le16B data.length) ++ (data ++ rest)).length := by
    rw [hlen]; omega
  unfold parseZip64Extra
  rw [hlen]
  simp only [zip64ExtraLoop]
  rw [if_pos hg]
  rw [if_pos hid, hds, hdrop, List.take_left]
  simp only [specZip64Idx1, specZip64Idx2]

/-- A leading block whose id is not the ZIP64 id is skipped whole: the scan
continues on the remaining extra-field bytes with all three fields
untouched. -/
theorem parseZip64Extra_skip (bid dlen : Nat) (data rest : List Nat) (c u l : Nat)
    (hbid1 : bid ≠ 1) (hbid16 : bid < 65536) (hd : data.length = dlen)
    (hdlen : dlen < 65536) :
    parseZip64Extra ((le16B bid ++ le16B dlen) ++ (data ++ rest)) c u l =
      parseZip64Extra rest c u l := by
  have hlen : ((le16B bid ++ le16B dlen) ++ (data ++ rest)).length =
      4 + (dlen + rest.length) := by
    simp only [le16B, List.length_append, List.length_cons, List.length_nil]
    omega
  have hbid : le16At ((le16B bid ++ le16B dlen) ++ (data ++ rest)) 0 = bid := by
    show bid % 256 + 256 * (bid / 256 % 256) = bid
    omega
  have hds : le16At ((le16B bid ++ le16B dlen) ++ (data ++ rest)) (0 + 2) = dlen := by
    show dlen % 256 + 256 * (dlen / 256 % 256) = dlen
    omega
  have hpre : ((le16B bid ++ le16B dlen) ++ data).length = 4 + dlen := by
    simp only [le16B, List.length_append, List.length_cons, List.length_nil]
    omega
  have hg : 0 + 4 ≤ ((le16B bid ++ le16B dlen) ++ (data ++ rest)).length := by
    rw [hlen]; omega
  have hstep : zip64ExtraLoop ((le16B bid ++ le16B dlen) ++ (data ++ rest))
      (4 + (dlen + rest.length) + 1) 0 c u l =
      zip64ExtraLoop ((le16B bid ++ le16B dlen) ++ (data ++ rest))
        (4 + (dlen + rest.length)) (0 + 4 + dlen) c u l := by
    simp only [zip64ExtraLoop]
    rw [if_pos hg]
    rw [hbid, if_neg hbid1, hds]
  unfold parseZip64Extra
  rw [hlen, hstep]
  rw [show (le16B bid ++ le16B dlen) ++ (data ++ rest) =
    ((le16B bid ++ le16B dlen) ++ data) ++ rest from (List.append_assoc _ _ _).symm]
  rw [show (0 + 4 + dlen : Nat) = ((le16B bid ++ le16B dlen) ++ data).length + 0 from by
    rw [hpre]; omega]
  rw [zip64ExtraLoop_shift]
  exact zip64ExtraLoop_fuel rest (4 + (dlen + rest.length))
    (rest.length + 1) 0 c u l (by omega) (by omega)

/-- Decoding the byte values of ASCII characters gives them back. -/
theorem utf8Chars_ascii : ∀ (cs : List Char), (∀ ch ∈ cs, ch.toNat < 128) →
    utf8Chars (cs.map Char.toNat).length (cs.map Char.toNat) = cs := by
  intro cs
  induction cs with
  | nil => intro _; rfl
  | cons a t ih =>
    intro h
    have ha : a.toNat < 128 := h a (List.mem_cons_self a t)
    have ht : ∀ ch ∈ t, ch.toNat < 128 := fun ch hch => h ch (List.mem_cons_of_mem a hch)
    have hstep : utf8Step a.toNat (t.map Char.toNat) = (Char.ofNat a.toNat, 0) := by
      unfold utf8Step
      rw [if_pos ha]
    simp only [List.map_cons, List.length_cons, utf8Chars]
    rw [hstep, Char.ofNat_toNat]
    show a :: utf8Chars (t.map Char.toNat).length ((t.map Char.toNat).drop 0) = a :: t
    rw [List.drop_zero, ih ht]

/-- Decoding the UTF-8 bytes of an ASCII string gives the string back. -/
theorem decodeUtf8Replace_strBytes (s : String) (h : ∀ ch ∈ s.data, ch.toNat < 128) :
    decodeUtf8Replace (strBytes s) = s := by
  unfold decodeUtf8Replace strBytes
  rw [utf8Chars_ascii s.data h]

/-- The 46 header bytes of a central-directory record, flattened: the
byte-by-byte layout `mkCDRecord` produces in front of the filename and
extra field. -/
def cdHdrBytes (compression crc compSize uncompSize localOff nameLen extraLen : Nat) :
    List Nat :=
  [80, 75, 1, 2, 20, 0, 20, 0, 0, 0,
   compression % 256, compression / 256 % 256, 0, 0, 0, 0,
   crc % 256, crc / 256 % 256, crc / 65536 % 256, crc / 16777216 % 256,
   compSize % 256, compSize / 256 % 256, compSize / 65536 % 256,
   compSize / 16777216 % 256,
   uncompSize % 256, uncompSize / 256 % 256, uncompSize / 65536 % 256,
   uncompSize / 16777216 % 256,
   nameLen % 256, nameLen / 256 % 256, extraLen % 256, extraLen / 256 % 256,
   0, 0, 0, 0, 0, 0, 0, 0, 0, 0,
   localOff % 256, localOff / 256 % 256, localOff / 65536 % 256,
   localOff / 16777216 % 256]

/-- A built record is its flat 46-byte header followed by name and extra. -/
theorem mkCDRecord_flat (name : String)
    (compression crc compSize uncompSize localOff : Nat) (extra : List Nat) :
    mkCDRecord name compression crc compSize uncompSize localOff extra =
      cdHdrBytes compression crc compSize uncompSize localOff
        (strBytes name).length extra.length ++ (strBytes name ++ extra) := by
  simp [mkCDRecord, zipCDSig, le16B, le32B, cdHdrBytes]

/-- Parsing a built central-directory record recovers the written fields,
with the three sentinel-eligible values run through the ZIP64 resolution:
the entry exposed to callers carries exactly the resolved triple, for any
extra field whatsoever. -/
theorem parseCDEntryAt_mkCDRecord (name : String)
    (compression crc compSize uncompSize localOff : Nat) (extra : List Nat)
    (hascii : ∀ ch ∈ name.data, ch.toNat < 128)
    (hc16 : compression < 65536) (hcrc : crc < 4294967296)
    (hcs : compSize < 4294967296) (hus : uncompSize < 4294967296)
    (hlo : localOff < 4294967296)
    (hnl : (strBytes name).length < 65536) (hel : extra.length < 65536) :
    parseCDEntryAt (mkCDRecord name compression crc compSize uncompSize localOff
        extra) 0 =
      .ok ({ filename := name
             compressed_size := (specExposedTriple extra compSize uncompSize localOff).1
             uncompressed_size :=
               (specExposedTriple extra compSize uncompSize localOff).2.1
             compression_method := compression
             local_header_offset :=
               (specExposedTriple extra compSize uncompSize localOff).2.2
             crc32 := crc
             extra_field := extra },
        46 + (strBytes name).length + extra.length) := by
  have hrec := mkCDRecord_flat name compression crc compSize uncompSize localOff extra
  have hhdrlen : (cdHdrBytes compression crc compSize uncompSize localOff
      (strBytes name).length extra.length).length = 46 := rfl
  have hhlen : (readAt (cdHdrBytes compression crc compSize uncompSize localOff
      (strBytes name).length extra.length ++ (strBytes name ++ extra)) 0 46).length =
      46 := by
    unfold readAt
    rw [List.drop_zero, List.length_take, List.length_append, hhdrlen]
    omega
  have hsig : (readAt (cdHdrBytes compression crc compSize uncompSize localOff
      (strBytes name).length extra.length ++ (strBytes name ++ extra)) 0 46).take 4 =
      zipCDSig := rfl
  have hguard : ¬((readAt (cdHdrBytes compression crc compSize uncompSize localOff
        (strBytes name).length extra.length ++ (strBytes name ++ extra)) 0 46).length <
        46 ∨
      (readAt (cdHdrBytes compression crc compSize uncompSize localOff
        (strBytes name).length extra.length ++ (strBytes name ++ extra)) 0 46).take 4 ≠
        zipCDSig) := by
    rw [hhlen, hsig]
    decide
  have h10 : le16At (readAt (cdHdrBytes compression crc compSize uncompSize localOff
      (strBytes name).length extra.length ++ (strBytes name ++ extra)) 0 46) 10 =
      compression := by
    show compression % 256 + 256 * (compression / 256 % 256) = compression
    omega
  have h16 : le32At (readAt (cdHdrBytes compression crc compSize uncompSize localOff
      (strBytes name).length extra.length ++ (strBytes name ++ extra)) 0 46) 16 =
      crc := by
    show crc % 256 + 256 * (crc / 256 % 256) + 65536 * (crc / 65536 % 256) +
      16777216 * (crc / 16777216 % 256) = crc
    omega
  have h20 : le32At (readAt (cdHdrBytes compression crc compSize uncompSize localOff
      (strBytes name).length extra.length ++ (strBytes name ++ extra)) 0 46) 20 =
      compSize := by
    show compSize % 256 + 256 * (compSize / 256 % 256) + 65536 * (compSize / 65536 % 256) +
      16777216 * (compSize / 16777216 % 256) = compSize
    omega
  have h24 : le32At (readAt (cdHdrBytes compression crc compSize uncompSize localOff
      (strBytes name).length extra.length ++ (strBytes name ++ extra)) 0 46) 24 =
      uncompSize := by
    show uncompSize % 256 + 256 * (uncompSize / 256 % 256) +
      65536 * (uncompSize / 65536 % 256) + 16777216 * (uncompSize / 16777216 % 256) =
      uncompSize
    omega
  have h28 : le16At (readAt (cdHdrBytes compression crc compSize uncompSize localOff
      (strBytes name).length extra.length ++ (strBytes name ++ extra)) 0 46) 28 =
      (strBytes name).length := by
    show (strBytes name).length % 256 + 256 * ((strBytes name).length / 256 % 256) =
      (strBytes name).length
    omega
  have h30 : le16At (readAt (cdHdrBytes compression crc compSize uncompSize localOff
      (strBytes name).length extra.length ++ (strBytes name ++ extra)) 0 46) 30 =
      extra.length := by
    show extra.length % 256 + 256 * (extra.length / 256 % 256) = extra.length
    omega
  have h32 : le16At (readAt (cdHdrBytes compression crc compSize uncompSize localOff
      (strBytes name).length extra.length ++ (strBytes name ++ extra)) 0 46) 32 = 0 := by
    show 0 + 256 * 0 = 0
    omega
  have h42 : le32At (readAt (cdHdrBytes compression crc compSize uncompSize localOff
      (strBytes name).length extra.length ++ (strBytes name ++ extra)) 0 46) 42 =
      localOff := by
    show localOff % 256 + 256 * (localOff / 256 % 256) + 65536 * (localOff / 65536 % 256) +
      16777216 * (localOff / 16777216 % 256) = localOff
    omega
  have hnb : readAt (cdHdrBytes compression crc compSize uncompSize localOff
      (strBytes name).length extra.length ++ (strBytes name ++ extra))
      (0 + 46) (strBytes name).length = strBytes name := by
    unfold readAt
    rw [show (cdHdrBytes compression crc compSize uncompSize localOff
      (strBytes name).length extra.length ++ (strBytes name ++ extra)).drop (0 + 46) =
      strBytes name ++ extra from rfl]
    exact List.take_left _ _
  have hex1 : readAt (cdHdrBytes compression crc compSize uncompSize localOff
      (strBytes name).length extra.length ++ (strBytes name ++ extra))
      (0 + 46 + (strBytes name).length) extra.length = extra := by
    unfold readAt
    rw [← List.drop_drop]
    rw [show (cdHdrBytes compression crc compSize uncompSize localOff
      (strBytes name).length extra.length ++ (strBytes name ++ extra)).drop (0 + 46) =
      strBytes name ++ extra from rfl]
    rw [List.drop_left]
    exact List.take_length extra
  have hex : (if extra.length > 0 then
        readAt (cdHdrBytes compression crc compSize uncompSize localOff
          (strBytes name).length extra.length ++ (strBytes name ++ extra))
          (0 + 46 + (strBytes name).length) extra.length
      else []) = extra := by
    by_cases hp : extra.length > 0
    · rw [if_pos hp]
      exact hex1
    · rw [if_neg hp]
      exact (List.length_eq_zero.mp (by omega)).symm
  simp only [parseCDEntryAt]
  rw [hrec]
  rw [if_neg hguard]
  rw [h10, h16, h20, h24, h28, h30, h32, h42]
  rw [hnb, decodeUtf8Replace_strBytes name hascii, hex]
  simp only [specExposedTriple]
  norm_num

/-- Claim C8 (amended): the extra field is scanned block by block and
non-ZIP64 blocks are skipped whole; an empty extra field leaves the three
32-bit fields untouched; at the first ZIP64 block the fields holding the
`0xFFFFFFFF` sentinel take consecutive 8-byte little-endian values from the
block data in the order uncompressed size, compressed size, local header
offset, each field resolved exactly when it holds the sentinel and the
block has 8 more bytes at its cursor, and keeping its 32-bit value —
sentinel included — in every other case; and the central-directory record
parser exposes exactly this resolved triple in the entry returned to
callers, for any extra field. -/
theorem C8_amended_zip64_override_characterization :
    (∀ (data rest : List Nat) (c u l : Nat), data.length < 65536 →
      parseZip64Extra (([1, 0] ++ le16B data.length) ++ (data ++ rest)) c u l =
        ((if c = zip64Marker ∧ specZip64Idx1 u data + 8 ≤ data.length
            then le64At data (specZip64Idx1 u data) else c),
          (if u = zip64Marker ∧ 8 ≤ data.length then le64At data 0 else u),
          (if l = zip64Marker ∧ specZip64Idx2 c u data + 8 ≤ data.length
            then le64At data (specZip64Idx2 c u data) else l))) ∧
    (∀ (bid dlen : Nat) (data rest : List Nat) (c u l : Nat),
      bid ≠ 1 → bid < 65536 → data.length = dlen → dlen < 65536 →
      parseZip64Extra ((le16B bid ++ le16B dlen) ++ (data ++ rest)) c u l =
        parseZip64Extra rest c u l) ∧
    (∀ c u l : Nat, parseZip64Extra [] c u l = (c, u, l)) ∧
    (∀ (name : String) (compression crc compSize uncompSize localOff : Nat)
        (extra : List Nat),
      (∀ ch ∈ name.data, ch.toNat < 128) →
      compression < 65536 → crc < 4294967296 → compSize < 4294967296 →
      uncompSize < 4294967296 → localOff < 4294967296 →
      (strBytes name).length < 65536 → extra.length < 65536 →
      parseCDEntryAt (mkCDRecord name compression crc compSize uncompSize localOff
          extra) 0 =
        .ok ({ filename := name
               compressed_size :=
                 (specExposedTriple extra compSize uncompSize localOff).1
               uncompressed_size :=
                 (specExposedTriple extra compSize uncompSize localOff).2.1
               compression_method := compression
               local_header_offset :=
                 (specExposedTriple extra compSize uncompSize localOff).2.2
               crc32 := crc
               extra_field := extra },
          46 + (strBytes name).length + extra.length)) :=
  ⟨parseZip64Extra_block, parseZip64Extra_skip, fun _ _ _ => rfl,
    parseCDEntryAt_mkCDRecord⟩

/-- Witness for the amended C8 theorem: a partially provided ZIP64 block
(8 bytes of data: only the uncompressed size is resolved, the other two
sentinels survive and are kept), a skipped foreign block in front of an
otherwise empty extra field, the empty extra field itself, and a sentinel
record whose exposed entry still carries `0xFFFFFFFF`. -/
theorem C8_amended_witness :
    (parseZip64Extra (([1, 0] ++ le16B (le64B 4294967297).length) ++
        (le64B 4294967297 ++ [])) zip64Marker zip64Marker zip64Marker =
      (4294967295, 4294967297, 4294967295)) ∧
    (parseZip64Extra ((le16B 7 ++ le16B 2) ++ ([9, 9] ++ [])) 1 2 3 = (1, 2, 3)) ∧
    (parseCDEntryAt (mkCDRecord "f" 0 0 4294967295 5 0 []) 0 =
      .ok ({ filename := "f", compressed_size := 4294967295, uncompressed_size := 5,
             compression_method := 0, local_header_offset := 0, crc32 := 0,
             extra_field := [] }, 47)) :=
  ⟨(C8_amended_zip64_override_characterization.1 (le64B 4294967297) [] zip64Marker
      zip64Marker zip64Marker (by decide)).trans (by decide),
    (C8_amended_zip64_override_characterization.2.1 7 2 [9, 9] [] 1 2 3 (by decide)
        (by decide) (by decide) (by decide)).trans
      (C8_amended_zip64_override_characterization.2.2.1 1 2 3),
    (C8_amended_zip64_override_characterization.2.2.2 "f" 0 0 4294967295 5 0 []
        (by decide) (by decide) (by decide) (by decide) (by decide) (by decide)
        (by decide) (by decide)).trans (by decide)⟩

/-! ## Claim C5 — the jsonFirst early-stop optimization -/

/-- The plain sequence of central-directory records starting at `pos`
(the parse loops below process exactly this sequence). -/
def cdRecords (file : List Nat) : Nat → Nat → Except ZipErr (List ZipEntry)
  | 0, _ => .ok []
  | n + 1, pos =>
    match parseCDEntryAt file pos with
    | .error e => .error e
    | .ok (entry, newPos) =>
      match cdRecords file n newPos with
      | .error e => .error e
      | .ok rest => .ok (entry :: rest)

/-- The prefix of a list up to and including the first element satisfying
`p` (the whole list when no element does). -/
def takeUntilIncl (p : α → Bool) : List α → List α
  | [] => []
  | a :: as => if p a then [a] else a :: takeUntilIncl p as

/-- With the stop flag on, the OZX parse loop processes exactly the records
up to and including the first one that is neither a directory nor a JSON
metadata file, inserting them in order. -/
theorem ozxLoop_stop_eq_takeUntil (file : List Nat) :
    ∀ (n pos : Nat) (acc : List (String × ZipEntry)) (L : List ZipEntry),
      cdRecords file n pos = .ok L →
      ozxParseLoop file true n pos acc =
        .ok ((takeUntilIncl (fun e => !e.is_directory && !e.is_json_file) L).foldl
          (fun m e => upsert m e.filename e) acc) := by
  intro n
  induction n with
  | zero =>
    intro pos acc L hL
    simp only [cdRecords] at hL
    cases hL
    rfl
  | succ n ih =>
    intro pos acc L hL
    simp only [cdRecords] at hL
    cases hp : parseCDEntryAt file pos with
    | error e => rw [hp] at hL; cases hL
    | ok pr =>
      obtain ⟨entry, newPos⟩ := pr
      rw [hp] at hL
      dsimp only at hL
      cases hr : cdRecords file n newPos with
      | error e => rw [hr] at hL; cases hL
      | ok rest =>
        rw [hr] at hL
        cases hL
        simp only [ozxParseLoop, hp]
        cases hstop : (!entry.is_directory && !entry.is_json_file) with
        | true =>
          simp only [takeUntilIncl, hstop, Bool.true_and, if_pos rfl]
          simp [List.foldl]
        | false =>
          simp only [takeUntilIncl, hstop, Bool.true_and]
          simp only [Bool.false_eq_true, if_false, List.foldl]
          exact ih newPos (upsert acc entry.filename entry) rest hr

/-- Claim C5: with OZX metadata present and `json_first` true, a
`parse_central_directory(json_only=True)` call over a directory whose
record sequence is `L` returns exactly the records of `L` up to and
including the first entry that is neither a directory nor a JSON metadata
file — that triggering entry is kept, and no later record is parsed in
that call. -/
theorem C5_json_only_stops_at_first_binary (st : ReaderState) (m : OZXMetadata)
    (L : List ZipEntry) (hop : st.opened = true) (hm : st.metadata = some m)
    (hjf : m.json_first = true)
    (hL : cdRecords st.fileData st.cdEntriesCount st.cdOffset = .ok L) :
    (ozxParseCD st true).2 =
      .ok ((takeUntilIncl (fun e => !e.is_directory && !e.is_json_file) L).foldl
        (fun acc e => upsert acc e.filename e) []) := by
  unfold ozxParseCD
  simp only [hop, hm, hjf, Bool.true_eq_false, if_false, Bool.not_true,
    Bool.and_false, Bool.false_eq_true, Bool.true_and, Bool.and_self]
  rw [ozxLoop_stop_eq_takeUntil st.fileData st.cdEntriesCount st.cdOffset [] L hL]

/-- The four records of the jsonFirst archive `c5CD`, in directory order. -/
def c5e1 : ZipEntry := ⟨ "a/", 0, 0, 0, 0, 0, [] ⟩

/-- Second record: a JSON metadata file. -/
def c5e2 : ZipEntry := ⟨ "a/.zattrs", 6, 6, 0, 50, 0, [] ⟩

/-- Third record: the first binary (non-directory, non-JSON) entry. -/
def c5e3 : ZipEntry := ⟨ "a/0", 9, 9, 0, 120, 0, [] ⟩

/-- Fourth record: a JSON file after the binary entry, never parsed. -/
def c5e4 : ZipEntry := ⟨ "b.json", 4, 4, 0, 220, 0, [] ⟩

/-- Witness for C5 on the concrete jsonFirst archive: parsing stops at the
binary chunk `a/0` (kept) and never reaches `b.json`. -/
theorem C5_witness :
    (ozxParseCD c5State true).2 =
      .ok [("a/", c5e1), ("a/.zattrs", c5e2), ("a/0", c5e3)] := by
  have h := C5_json_only_stops_at_first_binary c5State
    ⟨ "0.5", true, some "c" ⟩ [c5e1, c5e2, c5e3, c5e4] rfl rfl rfl (by decide)
  exact h.trans (by decide)

/-! ## Claim C6 — OZX metadata from the ZIP comment -/

/-- Spec-side (written from the claim's words): the value of `ome.version`
when the parsed comment is an object with an `ome` object carrying a
`version` key, and `none` otherwise. -/
def specOmeVersion : JVal → Option JVal
  | .obj kvs =>
    (match jLookup kvs "ome" with
     | some (.obj omeKvs) => jLookup omeKvs "version"
     | _ => none)
  | _ => none

/-- Spec-side (written from the claim's words): `json_first` is read from
`ome.zipFile.centralDirectory.jsonFirst`, defaulting to false when any
level is absent (or not an object). -/
def specJsonFirst : JVal → Bool
  | .obj kvs =>
    (match jLookup kvs "ome" with
     | some (.obj omeKvs) =>
       (match jLookup omeKvs "zipFile" with
        | some (.obj zfKvs) =>
          (match jLookup zfKvs "centralDirectory" with
           | some (.obj cdKvs) =>
             (match jLookup cdKvs "jsonFirst" with
              | some jv => pyTruthy jv
              | none => false)
           | _ => false)
        | _ => false)
     | _ => false)
  | _ => false

/-- Spec-side metadata function, assembled exactly as the claim states it:
`none` when the comment is empty, not valid JSON, or lacks an `ome` object
containing a `version` key; otherwise the version coerced to string, the
`jsonFirst` flag with absent levels defaulting to false, and the original
comment. -/
def specGetMetadata (loads : String → Option JVal) (comment : String) :
    Option OZXMetadata :=
  if comment = "" then none
  else
    match loads comment with
    | none => none
    | some data =>
      match specOmeVersion data with
      | none => none
      | some v => some ⟨ pyStr v, specJsonFirst data, some comment ⟩

/-- Claim C6: `get_metadata`'s comment parser agrees with the spec-side
description for every JSON parse outcome and every comment. -/
theorem C6_parse_zip_comment_matches_spec (loads : String → Option JVal)
    (comment : String) :
    parseZipComment loads comment = specGetMetadata loads comment := by
  unfold parseZipComment specGetMetadata
  by_cases hc : comment = ""
  · simp [hc]
  · simp only [if_neg hc]
    cases loads comment with
    | none => rfl
    | some data =>
      cases data with
      | null => rfl
      | bool b => rfl
      | int n => rfl
      | str s => rfl
      | arr xs => rfl
      | obj kvs =>
        cases ho : jLookup kvs "ome" with
        | none => simp [specOmeVersion, ho]
        | some ome =>
          cases ome with
          | null => simp [specOmeVersion, ho]
          | bool b => simp [specOmeVersion, ho]
          | int n => simp [specOmeVersion, ho]
          | str s => simp [specOmeVersion, ho]
          | arr xs => simp [specOmeVersion, ho]
          | obj omeKvs =>
            cases hv : jLookup omeKvs "version" with
            | none => simp [specOmeVersion, ho, hv]
            | some v => simp [specOmeVersion, specJsonFirst, ho, hv]

/-! ## List helpers for the streaming proofs -/

/-- Slicing an extended list: the slice of `P ++ d` is the slice of `P`
followed by the part of `d` that falls inside the window — the exact shape
of one skip/emit step of the range loops. -/
theorem slice_append_chunk (P d : List Nat) (s L : Nat) :
    ((P ++ d).drop s).take L =
      ((P.drop s).take L) ++ ((d.drop (s - P.length)).take (L - (P.length - s))) := by
  rw [List.drop_append_eq_append_drop, List.take_append_eq_append_take]
  congr 2
  simp [List.length_drop]

/-- Taking `min l.length m` elements is taking `m` elements. -/
theorem take_min_length (l : List Nat) (m : Nat) :
    l.take (min l.length m) = l.take m := by
  rcases Nat.le_total l.length m with h | h
  · rw [Nat.min_eq_left h, List.take_length, List.take_of_length_le h]
  · rw [Nat.min_eq_right h]

/-- Sequential reads: dropping `cl` bytes of a bounded read is the bounded
read `cl` bytes further on. -/
theorem readAt_drop (file : List Nat) (pos n cl : Nat) :
    (readAt file pos n).drop cl = readAt file (pos + cl) (n - cl) := by
  unfold readAt
  rw [List.drop_take, List.drop_drop]

/-- A bounded read re-bounded to fewer bytes. -/
theorem readAt_take (file : List Nat) (pos n m : Nat) (h : m ≤ n) :
    (readAt file pos n).take m = readAt file pos m := by
  unfold readAt
  rw [List.take_take, Nat.min_eq_left h]

/-- The STORE loop yields exactly the `remaining` bytes at `pos` (or all
bytes to EOF when the file ends first), given positive buffering and
enough fuel. -/
theorem storeLoop_join (file : List Nat) (bufSize : Nat) (hbuf : 0 < bufSize) :
    ∀ fuel remaining pos, remaining ≤ fuel →
      (storeLoop file bufSize fuel pos remaining).flatten = readAt file pos remaining := by
  intro fuel
  induction fuel with
  | zero =>
    intro remaining pos hle
    have h0 : remaining = 0 := Nat.le_zero.mp hle
    subst h0
    simp [storeLoop, readAt]
  | succ n ih =>
    intro remaining pos hle
    by_cases hr : remaining = 0
    · simp [storeLoop, hr, readAt]
    · simp only [storeLoop, if_neg hr]
      by_cases hc : readAt file pos (min bufSize remaining) = []
      · rw [if_pos hc]
        have hmin : 0 < min bufSize remaining :=
          Nat.lt_min.mpr ⟨hbuf, Nat.pos_of_ne_zero hr⟩
        have ht : file.drop pos = [] := by
          rcases List.take_eq_nil_iff.mp hc with h | h
          · exact absurd h (by omega)
          · exact h
        simp [readAt, ht]
      · rw [if_neg hc]
        have hm : min bufSize remaining ≤ remaining := Nat.min_le_right _ _
        have hcl : (readAt file pos (min bufSize remaining)).length =
            min (min bufSize remaining) (file.drop pos).length := by
          simp [readAt]
        have hpos : 0 < (readAt file pos (min bufSize remaining)).length :=
          List.length_pos.mpr hc
        rw [List.flatten_cons,
          ih (remaining - (readAt file pos (min bufSize remaining)).length)
            (pos + (readAt file pos (min bufSize remaining)).length) (by omega),
          ← readAt_drop]
        have hchunk : readAt file pos (min bufSize remaining) =
            (readAt file pos remaining).take
              (readAt file pos (min bufSize remaining)).length := by
          unfold readAt
          rw [List.take_take, List.length_take]
          have h1 : min (min (min bufSize remaining) (file.drop pos).length) remaining
              = min (min bufSize remaining) (file.drop pos).length := by omega
          rw [h1, Nat.min_comm (min bufSize remaining) (file.drop pos).length,
            take_min_length]
        calc readAt file pos (min bufSize remaining) ++
              (readAt file pos remaining).drop
                (readAt file pos (min bufSize remaining)).length
            = (readAt file pos remaining).take
                (readAt file pos (min bufSize remaining)).length ++
              (readAt file pos remaining).drop
                (readAt file pos (min bufSize remaining)).length := by rw [← hchunk]
          _ = readAt file pos remaining := List.take_append_drop _ _

/-! ## Claims C9, C4 — entry resolution and range validation -/

/-- Claim C9: in `stream_file_range`, entry resolution precedes range
validation — for a path absent from the (fully parsed) registry the call
raises `FileNotFoundError` for every range, valid or not, and consequently
the `ValueError` branch is unreachable for absent paths. -/
theorem C9_resolution_precedes_validation (D : DeflateModel) (st : ReaderState)
    (path : String) (hop : st.opened = true) (hcd : st.cdParsed = true)
    (habs : lookupEntry st.entries path = none) :
    (∀ (start stop : Int) (bufSize : Nat),
      streamFileRange D st path start stop bufSize = (st, .error .fileNotFound)) ∧
    (∀ (start stop : Int) (bufSize : Nat),
      (streamFileRange D st path start stop bufSize).2 ≠ .error .valueError) := by
  have hmain : ∀ (start stop : Int) (bufSize : Nat),
      streamFileRange D st path start stop bufSize = (st, .error .fileNotFound) := by
    intro start stop bufSize
    unfold streamFileRange getEntry
    simp [hop, hcd, habs]
  refine ⟨hmain, ?_⟩
  intro start stop bufSize
  rw [hmain]
  simp

/-- A decompressor model producing nothing (the STORE-path theorems never
consult it). -/
def dTriv : DeflateModel := ⟨ fun _ => [], fun _ => [] ⟩

/-- An opened, fully-parsed reader over an empty archive. -/
def c9State : ReaderState :=
  { opened := true, fileData := [], comment := "", metadata := none,
    entries := [], cdOffset := 0, cdSize := 0, cdEntriesCount := 0,
    isZip64 := false, cdParsed := true }

/-- Witness for C9: a concrete reader with an empty registry rejects a
missing path with `FileNotFoundError`, even with an invalid range. -/
theorem C9_witness :
    streamFileRange dTriv c9State "missing" (-3) (-7) 8192 =
      (c9State, .error .fileNotFound) :=
  (C9_resolution_precedes_validation dTriv c9State "missing"
    rfl rfl rfl).1 (-3) (-7) 8192

/-- Claim C4: `stream_file_range` range validation against the entry's
uncompressed size — a negative `start` or `end < start` is `ValueError`;
`start` at or past the uncompressed size yields the empty sequence without
error; an `end` past the last byte behaves exactly as `end =
uncompressed_size - 1` (silent clamping). -/
theorem C4_range_validation (D : DeflateModel) (st : ReaderState) (path : String)
    (e : ZipEntry) (start stop : Int) (bufSize : Nat)
    (hop : st.opened = true) (hcd : st.cdParsed = true)
    (hent : lookupEntry st.entries path = some e) :
    ((start < 0 ∨ stop < start) →
      streamFileRange D st path start stop bufSize = (st, .error .valueError)) ∧
    (0 ≤ start → start ≤ stop → (e.uncompressed_size : Int) ≤ start →
      streamFileRange D st path start stop bufSize = (st, .ok [])) ∧
    (0 ≤ start → start ≤ stop → start < (e.uncompressed_size : Int) →
      (e.uncompressed_size : Int) ≤ stop →
      streamFileRange D st path start stop bufSize =
        streamFileRange D st path start ((e.uncompressed_size : Int) - 1) bufSize) := by
  refine ⟨?_, ?_, ?_⟩
  · intro hbad
    unfold streamFileRange getEntry
    rcases hbad with h1 | h2
    · simp [hop, hcd, hent, h1]
    · by_cases h1 : start < 0
      · simp [hop, hcd, hent, h1]
      · simp [hop, hcd, hent, h1, h2]
  · intro h1 h2 h3
    unfold streamFileRange getEntry
    simp [hop, hcd, hent, not_lt.mpr h1, not_lt.mpr h2, h3]
  · intro h1 h2 h3 h4
    have hsz : (1 : Int) ≤ (e.uncompressed_size : Int) := by omega
    unfold streamFileRange getEntry
    have hne1 : ¬ start < 0 := not_lt.mpr h1
    have hne2 : ¬ stop < start := not_lt.mpr h2
    have hne2' : ¬ (e.uncompressed_size : Int) - 1 < start := by omega
    have hne3 : ¬ (e.uncompressed_size : Int) ≤ start := not_le.mpr h3
    simp only [hop, hcd, hent, Bool.true_eq_false, if_false, hne1, hne2, hne2',
      hne3, Bool.false_eq_true]
    have hmin : min stop.toNat (e.uncompressed_size - 1) =
        min ((e.uncompressed_size : Int) - 1).toNat (e.uncompressed_size - 1) := by
      omega
    rw [hmin]

/-- A 5-byte STORE entry registered in an opened, fully-parsed reader. -/
def c4Entry : ZipEntry := ⟨ "a", 5, 5, 0, 0, 0, [] ⟩

/-- Reader state holding only `c4Entry` (validation happens before any
file access, so the file bytes are irrelevant here). -/
def c4State : ReaderState :=
  { opened := true, fileData := [], comment := "", metadata := none,
    entries := [("a", c4Entry)], cdOffset := 0, cdSize := 0,
    cdEntriesCount := 1, isZip64 := false, cdParsed := true }

/-- Witness for C4 at concrete ranges: negative start raises, start past
the end yields empty, and an over-long end behaves as end = size - 1. -/
theorem C4_witness :
    (streamFileRange dTriv c4State "a" (-1) 3 8 = (c4State, .error .valueError)) ∧
    (streamFileRange dTriv c4State "a" 7 9 8 = (c4State, .ok [])) ∧
    (streamFileRange dTriv c4State "a" 1 100 8 =
      streamFileRange dTriv c4State "a" 1 4 8) := by
  refine ⟨ ?_, ?_, ?_ ⟩
  · exact (C4_range_validation dTriv c4State "a" c4Entry (-1) 3 8 rfl rfl rfl).1
      (Or.inl (by decide))
  · exact (C4_range_validation dTriv c4State "a" c4Entry 7 9 8 rfl rfl rfl).2.1
      (by decide) (by decide) (by decide)
  · exact (C4_range_validation dTriv c4State "a" c4Entry 1 100 8 rfl rfl rfl).2.2
      (by decide) (by decide) (by decide) (by decide)

/-! ## Claim C10 — STORE streaming is bounded and truncation-safe -/

/-- Claim C10: for a STORE entry with a valid local header, `stream_file`
returns normally (no exception) and the concatenation of its chunks is
exactly the bytes present in the file at the data offset, capped at
`uncompressed_size` — so at most `uncompressed_size` bytes in total, and
when the file ends early the stream simply ends early with fewer bytes. -/
theorem C10_store_stream_bounded (D : DeflateModel) (st : ReaderState)
    (path : String) (e : ZipEntry) (bufSize : Nat) (nameLen extraLen : Nat)
    (hop : st.opened = true) (hcd : st.cdParsed = true)
    (hent : lookupEntry st.entries path = some e)
    (hm : e.compression_method = 0) (hbuf : 0 < bufSize)
    (hsig : (readAt st.fileData e.local_header_offset 30).take 4 = zipLocalHeaderSig)
    (hlen : (readAt st.fileData e.local_header_offset 30).length = 30)
    (hnl : le16At (readAt st.fileData e.local_header_offset 30) 26 = nameLen)
    (hel : le16At (readAt st.fileData e.local_header_offset 30) 28 = extraLen) :
    ∃ cs, streamFile D st path bufSize = (st, .ok cs) ∧
      cs.flatten = readAt st.fileData
        (e.local_header_offset + 30 + nameLen + extraLen) e.uncompressed_size ∧
      cs.flatten.length ≤ e.uncompressed_size := by
  have hjoin := storeLoop_join st.fileData bufSize hbuf e.uncompressed_size
    e.uncompressed_size (e.local_header_offset + 30 + nameLen + extraLen) (le_refl _)
  refine ⟨storeLoop st.fileData bufSize e.uncompressed_size
    (e.local_header_offset + 30 + nameLen + extraLen) e.uncompressed_size, ?_, ?_, ?_⟩
  · unfold streamFile getEntry streamEntryFull localDataOffset
    simp [hop, hcd, hent, hsig, hlen, hm, hnl, hel]
  · exact hjoin
  · rw [hjoin]
    unfold readAt
    simp [List.length_take]

/-- An archive whose local header declares 5 uncompressed bytes but whose
data is truncated to 3 bytes (EOF mid-entry). -/
def c10File : List Nat := mkLocalEntry "a" 0 0 (strBytes "hel") 5

/-- The registered entry for `c10File`, claiming 5 uncompressed bytes. -/
def c10Entry : ZipEntry := ⟨ "a", 3, 5, 0, 0, 0, [] ⟩

/-- Opened, fully-parsed reader over the truncated archive. -/
def c10State : ReaderState :=
  { opened := true, fileData := c10File, comment := "", metadata := none,
    entries := [("a", c10Entry)], cdOffset := 0, cdSize := 0,
    cdEntriesCount := 1, isZip64 := false, cdParsed := true }

/-- Witness for C10 on the truncated archive: streaming ends early with
the 3 available bytes and no exception. -/
theorem C10_witness :
    ∃ cs, streamFile dTriv c10State "a" 4 = (c10State, .ok cs) ∧
      cs.flatten = readAt c10File 31 5 ∧ cs.flatten.length ≤ 5 :=
  C10_store_stream_bounded dTriv c10State "a" c10Entry 4 1 0 rfl rfl rfl rfl
    (by decide) (by decide) (by decide) (by decide) (by decide)

/-! ## Claim C3 — range streaming correctness -/

/-- Invariant of the DEFLATE range loop: the loop keeps feeding compressed
bytes (available in full at `pos`), tracking `decompressed_pos` as the
total decompressor output and `output_remaining` as the part of the
window not yet emitted; its yields extend the emitted slice of the
cumulative output, and it stops either with the window filled
(`outRemF = 0`) or with all compressed bytes fed. -/
theorem deflRangeLoop_spec (D : DeflateModel) (h0 : D.out [] = [])
    (hmono : ∀ xs ys, ∃ t, D.out (xs ++ ys) = D.out xs ++ t)
    (file : List Nat) (bufSize s L : Nat) (hbuf : 0 < bufSize) :
    ∀ fuel compRem pos fed dp outRem ys fedF dpF outRemF,
      compRem ≤ fuel →
      (readAt file pos compRem).length = compRem →
      dp = (D.out fed).length →
      outRem = L - (dp - s) →
      deflRangeLoop D file bufSize s fuel pos compRem fed dp outRem =
        (ys, fedF, dpF, outRemF) →
      dpF = (D.out fedF).length ∧
      outRemF = L - (dpF - s) ∧
      ((D.out fed).drop s).take L ++ ys.flatten = ((D.out fedF).drop s).take L ∧
      (∃ k, fedF = fed ++ (readAt file pos compRem).take k) ∧
      (outRemF = 0 ∨ fedF = fed ++ readAt file pos compRem) := by
  intro fuel
  induction fuel with
  | zero =>
    intro compRem pos fed dp outRem ys fedF dpF outRemF hle havail hdp hout hres
    have h0c : compRem = 0 := Nat.le_zero.mp hle
    subst h0c
    simp only [deflRangeLoop, Prod.mk.injEq] at hres
    obtain ⟨hys, hfed, hdpF, houtF⟩ := hres
    subst hys
    subst hfed
    subst hdpF
    subst houtF
    refine ⟨hdp, hout, by simp, ⟨0, by simp⟩, Or.inr (by simp [readAt])⟩
  | succ n ih =>
    intro compRem pos fed dp outRem ys fedF dpF outRemF hle havail hdp hout hres
    simp only [deflRangeLoop] at hres
    by_cases hstop : compRem = 0 ∨ outRem = 0
    · rw [if_pos hstop] at hres
      simp only [Prod.mk.injEq] at hres
      obtain ⟨hys, hfed, hdpF, houtF⟩ := hres
      subst hys
      subst hfed
      subst hdpF
      subst houtF
      refine ⟨hdp, hout, by simp, ⟨0, by simp⟩, ?_⟩
      rcases hstop with h | h
      · subst h
        exact Or.inr (by simp [readAt])
      · exact Or.inl h
    · rw [if_neg hstop] at hres
      push_neg at hstop
      obtain ⟨hcr, hor⟩ := hstop
      have havail' : min compRem (file.drop pos).length = compRem := by
        simpa [readAt] using havail
      set cl := (readAt file pos (min bufSize compRem)).length with hcldef
      have hchlen : cl = min bufSize compRem := by
        have h1 : (readAt file pos (min bufSize compRem)).length =
            min (min bufSize compRem) (file.drop pos).length := by
          simp [readAt]
        omega
      have hchne : readAt file pos (min bufSize compRem) ≠ [] := by
        intro hnil
        rw [hcldef, hnil] at hchlen
        simp at hchlen
        omega
      rw [if_neg hchne] at hres
      obtain ⟨t0, hout0⟩ := hmono fed (readAt file pos (min bufSize compRem))
      have hd_eq : (D.out (fed ++ readAt file pos (min bufSize compRem))).drop
          (D.out fed).length = t0 := by
        rw [hout0, List.drop_left]
      have hchunk_take : readAt file pos (min bufSize compRem) =
          (readAt file pos compRem).take cl := by
        rw [hchlen, readAt_take file pos compRem (min bufSize compRem)
          (Nat.min_le_right _ _)]
      have htail : readAt file (pos + cl) (compRem - cl) =
          (readAt file pos compRem).drop cl :=
        (readAt_drop file pos compRem _).symm
      have htail_len : (readAt file (pos + cl) (compRem - cl)).length =
          compRem - cl := by
        rw [htail, List.length_drop, havail]
      have hclpos : 0 < cl := by
        rw [hchlen]
        omega
      have hfuel : compRem - cl ≤ n := by omega
      -- case split on what the decompressor produced and where it lands
      by_cases hd : (D.out (fed ++ readAt file pos (min bufSize compRem))).drop
          (D.out fed).length = []
      · rw [if_pos hd] at hres
        have ht0 : t0 = [] := by rw [← hd_eq, hd]
        have hsame : D.out (fed ++ readAt file pos (min bufSize compRem)) =
            D.out fed := by
          rw [hout0, ht0, List.append_nil]
        obtain ⟨c1, c2, c3, ⟨k, hk⟩, c5⟩ := ih _ _ _ _ _ _ _ _ _ hfuel htail_len
          (by rw [hsame, hdp]) hout hres
        refine ⟨c1, c2, ?_, ?_, ?_⟩
        · rw [← c3, hsame]
        · refine ⟨cl + k, ?_⟩
          rw [hk, htail, hchunk_take, List.append_assoc, ← List.take_add]
        · rcases c5 with h | h
          · exact Or.inl h
          · refine Or.inr ?_
            rw [h, htail, hchunk_take, List.append_assoc, List.take_append_drop]
      · rw [if_neg hd] at hres
        have hdp' : dp + ((D.out (fed ++ readAt file pos (min bufSize compRem))).drop
            (D.out fed).length).length =
            (D.out (fed ++ readAt file pos (min bufSize compRem))).length := by
          rw [hd_eq, hout0, List.length_append, hdp]
        by_cases hskip : dp + ((D.out (fed ++ readAt file pos
            (min bufSize compRem))).drop (D.out fed).length).length ≤ s
        · rw [if_pos hskip] at hres
          have hout' : outRem = L -
              ((dp + ((D.out (fed ++ readAt file pos (min bufSize compRem))).drop
                (D.out fed).length).length) - s) := by
            omega
          obtain ⟨c1, c2, c3, ⟨k, hk⟩, c5⟩ := ih _ _ _ _ _ _ _ _ _ hfuel htail_len
            hdp' hout' hres
          have hnilslice : t0.drop (s - dp) = [] := by
            apply List.drop_eq_nil_of_le
            rw [hd_eq] at hskip
            omega
          have hslice : ((D.out (fed ++ readAt file pos (min bufSize compRem))).drop
              s).take L = ((D.out fed).drop s).take L := by
            rw [hout0, slice_append_chunk, ← hdp, hnilslice]
            simp
          refine ⟨c1, c2, ?_, ?_, ?_⟩
          · rw [← c3, hslice]
          · refine ⟨cl + k, ?_⟩
            rw [hk, htail, hchunk_take, List.append_assoc, ← List.take_add]
          · rcases c5 with h | h
            · exact Or.inl h
            · refine Or.inr ?_
              rw [h, htail, hchunk_take, List.append_assoc, List.take_append_drop]
        · rw [if_neg hskip] at hres
          -- the emit branch: some of the new output lands in the window
          have hcs : (if dp < s then s - dp else 0) = s - dp := by
            split_ifs with h
            · rfl
            · omega
          rw [hcs] at hres
          have htlen : ((D.out (fed ++ readAt file pos (min bufSize compRem))).drop
              (D.out fed).length).length = t0.length := by
            rw [hd_eq]
          have ht0pos : 0 < t0.length := by
            rw [← hd_eq]
            exact List.length_pos.mpr hd
          have hob : 0 < min (((D.out (fed ++ readAt file pos
              (min bufSize compRem))).drop (D.out fed).length).length - (s - dp))
              outRem := by
            rw [htlen]
            rw [htlen] at hskip
            omega
          rw [if_pos hob] at hres
          rcases hR : deflRangeLoop D file bufSize s n (pos + cl) (compRem - cl)
            (fed ++ readAt file pos (min bufSize compRem))
            (dp + ((D.out (fed ++ readAt file pos (min bufSize compRem))).drop
              (D.out fed).length).length)
            (outRem - min (((D.out (fed ++ readAt file pos
              (min bufSize compRem))).drop (D.out fed).length).length - (s - dp))
              outRem) with ⟨ysr, fedr, dpr, outr⟩
          rw [hR] at hres
          simp only [Prod.mk.injEq] at hres
          obtain ⟨hys, hfed, hdpF, houtF⟩ := hres
          subst hys
          subst hfed
          subst hdpF
          subst houtF
          have hout' : outRem - min (((D.out (fed ++ readAt file pos
              (min bufSize compRem))).drop (D.out fed).length).length - (s - dp))
              outRem = L -
              ((dp + ((D.out (fed ++ readAt file pos (min bufSize compRem))).drop
                (D.out fed).length).length) - s) := by
            rw [htlen]
            omega
          obtain ⟨c1, c2, c3, ⟨k, hk⟩, c5⟩ := ih _ _ _ _ _ _ _ _ _ hfuel htail_len
            hdp' hout' hR
          have hpiece : (((D.out (fed ++ readAt file pos
              (min bufSize compRem))).drop (D.out fed).length).drop (s - dp)).take
              (min (((D.out (fed ++ readAt file pos (min bufSize compRem))).drop
                (D.out fed).length).length - (s - dp)) outRem) =
              (t0.drop (s - dp)).take (L - (dp - s)) := by
            rw [hd_eq, ← List.length_drop, take_min_length, hout]
          have hslice : ((D.out (fed ++ readAt file pos (min bufSize compRem))).drop
              s).take L = ((D.out fed).drop s).take L ++
              (t0.drop (s - dp)).take (L - (dp - s)) := by
            rw [hout0, slice_append_chunk, ← hdp]
          refine ⟨c1, c2, ?_, ?_, ?_⟩
          · rw [List.flatten_cons, ← List.append_assoc, hpiece, ← hslice, c3]
          · refine ⟨cl + k, ?_⟩
            rw [hk, htail, hchunk_take, List.append_assoc, ← List.take_add]
          · rcases c5 with h | h
            · exact Or.inl h
            · refine Or.inr ?_
              rw [h, htail, hchunk_take, List.append_assoc, List.take_append_drop]

/-- If the emission window is already filled relative to a prefix `X` of
`B`, the slice of `B` equals the slice of `X`. -/
theorem slice_stable_of_filled (X B : List Nat) (start L : Nat)
    (hpre : ∃ u, B = X ++ u) (hfill : L - (X.length - start) = 0) :
    (B.drop start).take L = (X.drop start).take L := by
  obtain ⟨u, hu⟩ := hpre
  rw [hu, slice_append_chunk, hfill]
  simp

/-- The flush fix-up emits exactly the part of the flush output that falls
in the window, extending the emitted slice from the loop output to the
slice of the full uncompressed stream. -/
theorem deflFlush_spec (D : DeflateModel) (start L : Nat) (fedF : List Nat)
    (dpF outRemF : Nat) (hc1 : dpF = (D.out fedF).length)
    (hc2 : outRemF = L - (dpF - start)) :
    ((D.out fedF).drop start).take L ++ (deflRangeFlush D start fedF dpF outRemF).flatten
      = (((D.out fedF) ++ D.flushOut fedF).drop start).take L := by
  rw [slice_append_chunk, ← hc1]
  congr 1
  unfold deflRangeFlush
  by_cases h1 : outRemF > 0
  · rw [if_pos h1]
    by_cases h2 : D.flushOut fedF = []
    · simp only [h2, ne_eq, not_true_eq_false, if_false]
      simp
    · rw [if_pos h2]
      by_cases h3 : dpF + (D.flushOut fedF).length > start
      · rw [if_pos h3]
        have hob : 0 < min ((D.flushOut fedF).length - (start - dpF)) outRemF := by
          have hfin : 0 < (D.flushOut fedF).length := List.length_pos.mpr h2
          omega
        rw [if_pos hob]
        simp only [List.flatten_cons, List.flatten_nil, List.append_nil]
        rw [← List.length_drop, take_min_length, hc2]
      · rw [if_neg h3]
        have hnil : (D.flushOut fedF).drop (start - dpF) = [] := by
          apply List.drop_eq_nil_of_le
          omega
        rw [hnil]
        simp
  · rw [if_neg h1]
    have hz : L - (dpF - start) = 0 := by omega
    rw [hz]
    simp

/-- Claim C3: for an entry with uncompressed content `B` and any window
`start ≤ stop < B.length`, the chunks of `stream_file_range` concatenate
to `B[start..stop]` inclusive, for every positive `buffer_size`, for both
STORE entries (raw bytes present at the data offset) and DEFLATE entries
(compressed bytes present; the decompressor is any lawful stream function
whose total output, flush included, is `B`). -/
theorem C3_stream_file_range_correct (D : DeflateModel) (st : ReaderState)
    (path : String) (e : ZipEntry) (B : List Nat)
    (start stop bufSize nameLen extraLen : Nat)
    (hop : st.opened = true) (hcd : st.cdParsed = true)
    (hent : lookupEntry st.entries path = some e)
    (hsize : e.uncompressed_size = B.length)
    (hse : start ≤ stop) (hstop : stop < B.length) (hbuf : 0 < bufSize)
    (hsig : (readAt st.fileData e.local_header_offset 30).take 4 = zipLocalHeaderSig)
    (hlen : (readAt st.fileData e.local_header_offset 30).length = 30)
    (hnl : le16At (readAt st.fileData e.local_header_offset 30) 26 = nameLen)
    (hel : le16At (readAt st.fileData e.local_header_offset 30) 28 = extraLen)
    (hcase :
      (e.compression_method = 0 ∧
        readAt st.fileData (e.local_header_offset + 30 + nameLen + extraLen)
          B.length = B) ∨
      (e.compression_method = 8 ∧ D.out [] = [] ∧
        (∀ xs ys, ∃ t, D.out (xs ++ ys) = D.out xs ++ t) ∧
        (readAt st.fileData (e.local_header_offset + 30 + nameLen + extraLen)
          e.compressed_size).length = e.compressed_size ∧
        D.out (readAt st.fileData (e.local_header_offset + 30 + nameLen + extraLen)
          e.compressed_size) ++
          D.flushOut (readAt st.fileData (e.local_header_offset + 30 + nameLen +
            extraLen) e.compressed_size) = B)) :
    ∃ cs, streamFileRange D st path (start : Int) (stop : Int) bufSize =
        (st, .ok cs) ∧
      cs.flatten = (B.drop start).take (stop - start + 1) := by
  have h1 : ¬ ((start : Int) < 0) := by omega
  have h2 : ¬ ((stop : Int) < (start : Int)) := by omega
  have h3 : ¬ ((e.uncompressed_size : Int) ≤ (start : Int)) := by omega
  have hwrap : streamFileRange D st path (start : Int) (stop : Int) bufSize =
      (st, rangeFromEntry D st.fileData e start (stop - start + 1) bufSize) := by
    unfold streamFileRange getEntry
    simp only [hop, hcd, hent, Bool.true_eq_false, if_false, h1, h2, h3]
    have ha : ((start : Int)).toNat = start := by omega
    have hb : min ((stop : Int)).toNat (e.uncompressed_size - 1) = stop := by omega
    rw [ha, hb]
  rcases hcase with ⟨hm0, hstoreB⟩ | ⟨hm8, h0', hmono', havailC, hB⟩
  · -- STORE
    have hrange : rangeFromEntry D st.fileData e start (stop - start + 1) bufSize =
        .ok (storeLoop st.fileData bufSize (stop - start + 1)
          (e.local_header_offset + 30 + nameLen + extraLen + start)
          (stop - start + 1)) := by
      unfold rangeFromEntry localDataOffset
      simp [hsig, hlen, hm0, hnl, hel]
    refine ⟨_, by rw [hwrap, hrange], ?_⟩
    rw [storeLoop_join st.fileData bufSize hbuf (stop - start + 1)
      (stop - start + 1) _ (le_refl _)]
    have hd1 : (readAt st.fileData (e.local_header_offset + 30 + nameLen + extraLen)
        B.length).drop start =
        readAt st.fileData (e.local_header_offset + 30 + nameLen + extraLen + start)
          (B.length - start) :=
      readAt_drop st.fileData _ B.length start
    have hd2 : (readAt st.fileData
        (e.local_header_offset + 30 + nameLen + extraLen + start)
        (B.length - start)).take (stop - start + 1) =
        readAt st.fileData (e.local_header_offset + 30 + nameLen + extraLen + start)
          (stop - start + 1) :=
      readAt_take st.fileData _ (B.length - start) (stop - start + 1) (by omega)
    rw [← hstoreB, hd1, hd2]
  · -- DEFLATE
    rcases hloop : deflRangeLoop D st.fileData bufSize start e.compressed_size
      (e.local_header_offset + 30 + nameLen + extraLen) e.compressed_size [] 0
      (stop - start + 1) with ⟨ys, fedF, dpF, outRemF⟩
    have hrange : rangeFromEntry D st.fileData e start (stop - start + 1) bufSize =
        .ok (ys ++ deflRangeFlush D start fedF dpF outRemF) := by
      unfold rangeFromEntry localDataOffset
      simp [hsig, hlen, hm8, hnl, hel, hloop]
    obtain ⟨c1, c2, c3, ⟨k, hk⟩, c5⟩ := deflRangeLoop_spec D h0' hmono' st.fileData
      bufSize start (stop - start + 1) hbuf e.compressed_size e.compressed_size
      (e.local_header_offset + 30 + nameLen + extraLen) [] 0 (stop - start + 1)
      ys fedF dpF outRemF (le_refl _) havailC (by rw [h0']; rfl) (by omega) hloop
    have hys : ys.flatten =
        ((D.out fedF).drop start).take (stop - start + 1) := by
      have h := c3
      rw [h0'] at h
      simpa using h
    refine ⟨_, by rw [hwrap, hrange], ?_⟩
    rw [List.flatten_append]
    by_cases houtF : outRemF = 0
    · have hflushnil : deflRangeFlush D start fedF dpF outRemF = [] := by
        unfold deflRangeFlush
        rw [houtF]
        simp
      rw [hflushnil]
      simp only [List.flatten_nil, List.append_nil]
      rw [hys]
      have hCsplit : readAt st.fileData
          (e.local_header_offset + 30 + nameLen + extraLen) e.compressed_size =
          fedF ++ (readAt st.fileData
            (e.local_header_offset + 30 + nameLen + extraLen)
            e.compressed_size).drop k := by
        conv_lhs => rw [← List.take_append_drop k (readAt st.fileData
          (e.local_header_offset + 30 + nameLen + extraLen) e.compressed_size)]
        rw [List.nil_append] at hk
        rw [hk]
      obtain ⟨t1, ht1⟩ := hmono' fedF ((readAt st.fileData
        (e.local_header_offset + 30 + nameLen + extraLen)
        e.compressed_size).drop k)
      refine (slice_stable_of_filled (D.out fedF) B start (stop - start + 1)
        ⟨t1 ++ D.flushOut (readAt st.fileData
          (e.local_header_offset + 30 + nameLen + extraLen) e.compressed_size),
          ?_⟩ (by omega)).symm
      rw [← hB]
      conv_lhs => rw [hCsplit]
      rw [ht1, List.append_assoc, ← hCsplit]
    · have hfedC : fedF = readAt st.fileData
          (e.local_header_offset + 30 + nameLen + extraLen) e.compressed_size := by
        rcases c5 with h | h
        · exact absurd h houtF
        · rw [List.nil_append] at h
          exact h
      have hflush := deflFlush_spec D start (stop - start + 1) fedF dpF outRemF c1 c2
      rw [hys, hflush, hfedC, hB]

/-- An archive holding the 11 STORE bytes of "hello world". -/
def c3File : List Nat := mkLocalEntry "a" 0 0 (strBytes "hello world") 11

/-- The registered entry for `c3File`. -/
def c3Entry : ZipEntry := ⟨ "a", 11, 11, 0, 0, 0, [] ⟩

/-- Opened, fully-parsed reader over `c3File`. -/
def c3State : ReaderState :=
  { opened := true, fileData := c3File, comment := "", metadata := none,
    entries := [("a", c3Entry)], cdOffset := 0, cdSize := 0,
    cdEntriesCount := 1, isZip64 := false, cdParsed := true }

/-- Witness for C3: bytes 3..7 of "hello world" stream back exactly, with
a buffer smaller than the range. -/
theorem C3_witness :
    ∃ cs, streamFileRange dTriv c3State "a" 3 7 2 = (c3State, .ok cs) ∧
      cs.flatten = ((strBytes "hello world").drop 3).take 5 :=
  C3_stream_file_range_correct dTriv c3State "a" c3Entry (strBytes "hello world")
    3 7 2 1 0 rfl rfl rfl (by decide) (by decide) (by decide) (by decide)
    (by decide) (by decide) (by decide) (by decide)
    (Or.inl ⟨rfl, by decide⟩)

/-! ## Claim C7 — EOCD location -/

/-- `rfindFrom` returns an occurrence that dominates all occurrences up to
its search start. -/
theorem rfindFrom_spec (data sig : List Nat) :
    ∀ n j, rfindFrom data sig n = some j →
      sigOccursAt data sig j = true ∧
      ∀ k, k ≤ n → sigOccursAt data sig k = true → k ≤ j := by
  intro n
  induction n with
  | zero =>
    intro j h
    simp only [rfindFrom] at h
    by_cases h0 : sigOccursAt data sig 0 = true
    · rw [if_pos h0] at h
      cases h
      exact ⟨h0, fun k hk _ => hk⟩
    · rw [if_neg h0] at h
      cases h
  | succ n ih =>
    intro j h
    simp only [rfindFrom] at h
    by_cases h0 : sigOccursAt data sig (n + 1) = true
    · rw [if_pos h0] at h
      cases h
      exact ⟨h0, fun k hk _ => hk⟩
    · rw [if_neg h0] at h
      obtain ⟨hj, hdom⟩ := ih j h
      refine ⟨hj, fun k hk hocc => ?_⟩
      rcases Nat.lt_or_ge k (n + 1) with hlt | hge
      · exact hdom k (by omega) hocc
      · exact absurd hocc (by
          have : k = n + 1 := by omega
          rw [this]
          exact fun hx => h0 hx)
  
/-- `rfindFrom` finds a known occurrence when nothing beyond it occurs. -/
theorem rfindFrom_eq_of (data sig : List Nat) (j : Nat) :
    ∀ n, j ≤ n → sigOccursAt data sig j = true →
      (∀ k, j < k → k ≤ n → sigOccursAt data sig k = false) →
      rfindFrom data sig n = some j := by
  intro n
  induction n with
  | zero =>
    intro hj hocc _
    have : j = 0 := by omega
    subst this
    simp only [rfindFrom, if_pos hocc]
  | succ n ih =>
    intro hj hocc hnone
    by_cases hje : j = n + 1
    · subst hje
      simp only [rfindFrom, if_pos hocc]
    · have hlast : sigOccursAt data sig (n + 1) = false := hnone (n + 1) (by omega) (le_refl _)
      simp only [rfindFrom, hlast, Bool.false_eq_true, if_false]
      exact ih (by omega) hocc (fun k h1 h2 => hnone k h1 (by omega))

/-- An occurrence of a non-empty signature lies inside the data. -/
theorem sigOccursAt_le (data sig : List Nat) (k : Nat) (hs : sig ≠ [])
    (h : sigOccursAt data sig k = true) : k ≤ data.length := by
  simp only [sigOccursAt, decide_eq_true_eq] at h
  by_contra hk
  push_neg at hk
  have hnil : data.drop k = [] := List.drop_eq_nil_of_le (by omega)
  rw [hnil, List.take_nil] at h
  exact hs h.symm

/-- `byteAt` through `headD` of the dropped tail. -/
theorem getD_eq_headD_drop (l : List Nat) : ∀ k, l.getD k 0 = (l.drop k).headD 0 := by
  induction l with
  | nil => intro k; simp
  | cons a t ih =>
    intro k
    cases k with
    | zero => simp
    | succ k => simpa using ih k

/-- Taking a positive number of elements keeps the head. -/
theorem headD_take_pos (l : List Nat) (n : Nat) (d : Nat) (h : 0 < n) :
    (l.take n).headD d = l.headD d := by
  cases n with
  | zero => omega
  | succ m => cases l <;> simp

/-- `getD` over a zero-replicate with zero default is zero. -/
theorem getD_replicate_zero : ∀ n i, (List.replicate n (0 : Nat)).getD i 0 = 0 := by
  intro n
  induction n with
  | zero => intro i; simp
  | succ m ih =>
    intro i
    cases i with
    | zero => simp [List.replicate_succ]
    | succ i => simpa [List.replicate_succ] using ih i

/-- Claim C7 (amended): the EOCD locator scans exactly the last
`min(65558, file_size)` bytes (the code's `MAX_EOCD_SEARCH_SIZE = 65536 +
22`, not the claim's 65557); when that window holds no `PK\x05\x06` the
open fails with `InvalidZipError`; when it does, the locator picks the
rightmost occurrence. -/
theorem C7_amended_eocd_locator :
    (∀ st : ReaderState, st.opened = true →
      bytesRfind (eocdWindow st.fileData) zipEOCDSig = none →
      parseEocd st = .error .invalidZip) ∧
    (∀ (data : List Nat) (j : Nat), bytesRfind data zipEOCDSig = some j →
      sigOccursAt data zipEOCDSig j = true ∧
      ∀ k, sigOccursAt data zipEOCDSig k = true → k ≤ j) ∧
    (∀ file : List Nat, (eocdWindow file).length = min 65558 file.length) := by
  refine ⟨?_, ?_, ?_⟩
  · intro st hop hnone
    unfold parseEocd
    unfold eocdWindow at hnone
    simp only [hop, Bool.true_eq_false, if_false, hnone]
  · intro data j h
    obtain ⟨hocc, hdom⟩ := rfindFrom_spec data zipEOCDSig data.length j h
    refine ⟨hocc, fun k hk => ?_⟩
    exact hdom k (sigOccursAt_le data zipEOCDSig k (by decide) hk) hk
  · intro file
    unfold eocdWindow readAt
    rw [List.length_take, List.length_drop]
    have : min maxEocdSearchSize file.length ≤ file.length := Nat.min_le_right _ _
    unfold maxEocdSearchSize
    omega

/-- A three-byte file with no EOCD signature anywhere. -/
def c7SmallState : ReaderState :=
  { opened := true, fileData := [1, 2, 3], comment := "", metadata := none,
    entries := [], cdOffset := 0, cdSize := 0, cdEntriesCount := 0,
    isZip64 := false, cdParsed := false }

/-- Witness for the amended C7 theorem: no signature in a small file means
`InvalidZipError`, and a rightmost-of-two search is checked concretely. -/
theorem C7_amended_witness :
    (parseEocd c7SmallState = .error .invalidZip) ∧
    (sigOccursAt ([9] ++ zipEOCDSig ++ zipEOCDSig) zipEOCDSig 5 = true ∧
      ∀ k, sigOccursAt ([9] ++ zipEOCDSig ++ zipEOCDSig) zipEOCDSig k = true →
        k ≤ 5) := by
  refine ⟨C7_amended_eocd_locator.1 c7SmallState rfl (by decide), ?_⟩
  exact C7_amended_eocd_locator.2.1 ([9] ++ zipEOCDSig ++ zipEOCDSig) 5 (by decide)

/-- A 22-byte EOCD record with all-zero fields. -/
def eocdZeroRecord : List Nat := zipEOCDSig ++ List.replicate 18 0

/-- A 65558-byte file: the EOCD record at offset 0 followed by 65536 zero
bytes. Its only signature occurrence is at file offset 0 — inside the last
65558 bytes but outside the last 65557. -/
def c7BigFile : List Nat := eocdZeroRecord ++ List.replicate 65536 0

/-- Reader state over the big file. -/
def c7BigState : ReaderState :=
  { opened := true, fileData := c7BigFile, comment := "", metadata := none,
    entries := [], cdOffset := 0, cdSize := 0, cdEntriesCount := 0,
    isZip64 := false, cdParsed := false }

/-- The big file is 65558 bytes long. -/
theorem c7BigFile_length : c7BigFile.length = 65558 := by
  unfold c7BigFile eocdZeroRecord zipEOCDSig
  rw [List.length_append, List.length_append, List.length_replicate,
    List.length_replicate]
  rfl

/-- The signature occurs only at offset 0 of the big file. -/
theorem c7BigFile_no_late_sig :
    ∀ k, 1 ≤ k → sigOccursAt c7BigFile zipEOCDSig k = false := by
  intro k hk1
  by_contra hocc
  rw [Bool.not_eq_false] at hocc
  simp only [sigOccursAt, decide_eq_true_eq] at hocc
  have h80 : byteAt c7BigFile k = 80 := by
    unfold byteAt
    rw [getD_eq_headD_drop, ← headD_take_pos (c7BigFile.drop k) 4 0 (by omega)]
    rw [show (c7BigFile.drop k).take 4 =
      (c7BigFile.drop k).take zipEOCDSig.length from rfl, hocc]
    rfl
  have hreclen : eocdZeroRecord.length = 22 := by
    unfold eocdZeroRecord zipEOCDSig
    rw [List.length_append, List.length_replicate]
    rfl
  by_cases hk22 : k < 22
  · have hsmall : byteAt c7BigFile k = byteAt eocdZeroRecord k := by
      unfold byteAt c7BigFile
      exact List.getD_append _ _ _ k (by omega)
    have hne : ∀ j, j < 22 → 1 ≤ j → byteAt eocdZeroRecord j ≠ 80 := by decide
    exact hne k hk22 hk1 (hsmall ▸ h80)
  · have hzero : byteAt c7BigFile k = 0 := by
      unfold byteAt c7BigFile
      rw [List.getD_append_right _ _ _ _ (by omega), getD_replicate_zero]
    omega

set_option maxRecDepth 8000 in
/-- Claim C7 counterexample: on the 65558-byte file whose only EOCD
signature sits at offset 0, the last 65557 bytes — the claim's scan window
`min(65557, file_size)` — contain no signature, so the claim mandates
`InvalidZipError`; the code scans one byte more, finds the record and
opens the archive successfully. -/
theorem C7_counterexample_window_is_65558 :
    (parseEocd c7BigState = .ok c7BigState) ∧
    (∀ j, sigOccursAt (c7BigFile.drop 1) zipEOCDSig j = false) := by
  constructor
  · have hocc0 : sigOccursAt c7BigFile zipEOCDSig 0 = true := by
      simp only [sigOccursAt, decide_eq_true_eq, List.drop_zero]
      rfl
    have hsome : bytesRfind c7BigFile zipEOCDSig = some 0 := by
      unfold bytesRfind
      exact rfindFrom_eq_of c7BigFile zipEOCDSig 0 c7BigFile.length (by omega)
        hocc0 (fun k h1 _ => c7BigFile_no_late_sig k h1)
    have hmin : min maxEocdSearchSize c7BigFile.length = 65558 := by
      rw [c7BigFile_length]
      unfold maxEocdSearchSize
      omega
    have hdata : readAt c7BigFile
        (c7BigFile.length - min maxEocdSearchSize c7BigFile.length)
        (min maxEocdSearchSize c7BigFile.length) = c7BigFile := by
      rw [hmin, c7BigFile_length]
      unfold readAt
      rw [Nat.sub_self, List.drop_zero]
      exact List.take_of_length_le (by rw [c7BigFile_length])
    show parseEocd c7BigState = .ok c7BigState
    unfold parseEocd
    rw [show c7BigState.opened = true from rfl,
      if_neg (fun h => Bool.noConfusion h)]
    simp only [show c7BigState.fileData = c7BigFile from rfl, hdata, hsome]
    rfl
  · intro j
    have h := c7BigFile_no_late_sig (j + 1) (by omega)
    unfold sigOccursAt at h ⊢
    rw [List.drop_drop, Nat.add_comm 1 j]
    exact h
